import Mathlib

/-!
# PEER-Inc/countries: a shallow embedding of `country.go` and `utils.go`

Modelling conventions.

* A Go `string` is a Lean `String`, read as its sequence of code points.  The
  strings of this package are UTF-8 text, all searched-for tokens are ASCII,
  and on valid UTF-8 a byte-wise search or comparison agrees with the
  code-point-wise one.
* A Go `map[K]V` is the list of its entries, in the order in which the runtime
  enumerates them for a `range` loop.  A list is a map when its keys are
  pairwise distinct.  Indexing is `GoMap.get` (the zero value when the key is
  absent) and assignment is `GoMap.set`.
* `float64` and `int` fields are only ever copied by this code; a `float64` is
  carried as its IEEE-754 bit pattern.
* Behaviour of imported packages that the code relies on (`regexp`,
  `unicode.ToLower`) is taken as a parameter.
* A slice that a function returns is a `GoSlice`, where `none` is the nil
  slice; a slice stored in a record is the list of its elements.
* The package variable `Data` is a parameter of the functions that read it.
* A pointer into a map or slice is given by the record it points to, and a
  write through it by the new state of the container (`sourcesAfter`).
-/

set_option maxRecDepth 100000

namespace Countries

/-! ## Go runtime: zero values and maps -/

/-- The zero value of a Go type. -/
class GoZero (α : Type) where
  zero : α

instance : GoZero String := ⟨""⟩
instance : GoZero Bool := ⟨false⟩
instance : GoZero Int := ⟨0⟩
instance : GoZero Nat := ⟨0⟩
instance : GoZero Char := ⟨Char.ofNat 0⟩
instance {α : Type} : GoZero (List α) := ⟨[]⟩

/-- Entries of a Go map in enumeration order. -/
abbrev GoMap (κ ν : Type) := List (κ × ν)

/-- The keys of a map are pairwise distinct. -/
def GoMap.WF {κ ν : Type} (m : GoMap κ ν) : Prop := (m.map Prod.fst).Nodup

/-- The two-result index expression `v, ok := m[k]`. -/
def GoMap.find {κ ν : Type} [DecidableEq κ] : GoMap κ ν → κ → Option ν
  | [], _ => none
  | (k0, v) :: rest, k => if k0 = k then some v else GoMap.find rest k

/-- The index expression `m[k]`: the stored value, or the zero value. -/
def GoMap.get {κ ν : Type} [DecidableEq κ] [GoZero ν] (m : GoMap κ ν) (k : κ) : ν :=
  match GoMap.find m k with
  | some v => v
  | none => GoZero.zero

instance GoMap.decidableWF {κ ν : Type} [DecidableEq κ] (m : GoMap κ ν) :
    Decidable (GoMap.WF m) :=
  inferInstanceAs (Decidable (m.map Prod.fst).Nodup)

/-- The assignment `m[k] = v`. -/
def GoMap.set {κ ν : Type} [DecidableEq κ] : GoMap κ ν → κ → ν → GoMap κ ν
  | [], k, v => [(k, v)]
  | (k0, v0) :: rest, k, v =>
    if k0 = k then (k, v) :: rest else (k0, v0) :: GoMap.set rest k v

/-! ## Data model (`country.go`) -/

/-- A `float64`, carried as its bit pattern. -/
abbrev Float64 := Nat

structure Coord where
  Lat : Float64
  Lng : Float64
deriving DecidableEq, Repr

structure Bounds where
  Northeast : Coord
  Southwest : Coord
deriving DecidableEq, Repr

structure Geo where
  Latitude : Float64
  Longitude : Float64
  MaxLatitude : Float64
  MaxLongitude : Float64
  MinLatitude : Float64
  MinLongitude : Float64
  Bounds : Bounds
deriving DecidableEq, Repr

structure VatRates where
  Standard : Int
  Reduced : List Int
  SuperReduced : Int
  Parking : Int
deriving DecidableEq, Repr

/-- The field `Type` of the source is spelled `Type_`. -/
structure Subdivision where
  Name : String
  Code : String
  Type_ : String
  Capital : Bool
  Geo : Geo
  Translations : GoMap String String
deriving DecidableEq, Repr

structure Country where
  AddressFormat : String
  Alpha2 : String
  Alpha3 : String
  Capital : String
  Continent : String
  CountryCode : String
  CurrencyCode : String
  EEAMember : Bool
  EUMember : Bool
  G7Member : Bool
  G20Member : Bool
  ESMMember : Bool
  GEC : String
  Geo : Geo
  InternationalPrefix : String
  IOC : String
  ISOLongName : String
  ISOShortName : String
  LanguagesOfficial : List String
  LanguagesSpoken : List String
  NationalDestinationCodeLengths : List Int
  NationalNumberLengths : List Int
  NationalPrefix : String
  Nationality : String
  Number : String
  PostalCodeFormat : String
  Region : String
  StartOfWeek : String
  Subdivisions : GoMap String Subdivision
  Subregion : String
  Timezones : List String
  Translations : GoMap String String
  UnLocode : String
  UnofficialNames : List String
  VatRates : VatRates
  WorldRegion : String
deriving DecidableEq, Repr

instance : GoZero Coord := ⟨⟨0, 0⟩⟩
instance : GoZero Bounds := ⟨⟨GoZero.zero, GoZero.zero⟩⟩
instance : GoZero Geo := ⟨⟨0, 0, 0, 0, 0, 0, GoZero.zero⟩⟩
instance : GoZero VatRates := ⟨⟨0, [], 0, 0⟩⟩

instance : GoZero Subdivision :=
  ⟨{ Name := "", Code := "", Type_ := "", Capital := false, Geo := GoZero.zero,
     Translations := [] }⟩

instance : GoZero Country :=
  ⟨{ AddressFormat := "", Alpha2 := "", Alpha3 := "", Capital := "", Continent := "",
     CountryCode := "", CurrencyCode := "", EEAMember := false, EUMember := false,
     G7Member := false, G20Member := false, ESMMember := false, GEC := "",
     Geo := GoZero.zero, InternationalPrefix := "", IOC := "", ISOLongName := "",
     ISOShortName := "", LanguagesOfficial := [], LanguagesSpoken := [],
     NationalDestinationCodeLengths := [], NationalNumberLengths := [],
     NationalPrefix := "", Nationality := "", Number := "", PostalCodeFormat := "",
     Region := "", StartOfWeek := "", Subdivisions := [], Subregion := "",
     Timezones := [], Translations := [], UnLocode := "", UnofficialNames := [],
     VatRates := GoZero.zero, WorldRegion := "" }⟩

/-! ## Package `strings` -/

/-- The scan of `strings.ReplaceAll` for a non-empty `old`: the leftmost
occurrence is replaced and the scan resumes behind it.  `skip` counts the
characters of the occurrence just replaced that are still to be dropped. -/
def replaceScan (old new : List Char) : List Char → Nat → List Char
  | [], _ => []
  | _ :: s, skip + 1 => replaceScan old new s skip
  | c :: s, 0 =>
    if old.isPrefixOf (c :: s) then new ++ replaceScan old new s (old.length - 1)
    else c :: replaceScan old new s 0

/-- `strings.ReplaceAll(s, old, new)`: every non-overlapping occurrence of
`old` in `s`, leftmost first, is replaced by `new`.  With `old == new` the
string is returned as it is; an empty `old` matches before every code point
and at the end. -/
def ReplaceAll (s old new : String) : String :=
  if old = new then s
  else if old.data = [] then ⟨new.data ++ s.data.flatMap (fun c => c :: new.data)⟩
  else ⟨replaceScan old.data new.data s.data 0⟩

/-! ## Package `regexp` -/

/-- Regular expressions of the modelled fragment of the RE2 syntax. -/
inductive Re where
  | empty
  | char (c : Char)
  | digit
  | bot
  | eot
  | seq (a b : Re)
  | alt (a b : Re)
  | rep (a : Re) (lo : Nat) (hi : Option Nat)
deriving DecidableEq, Repr

/-- The class `\d` of RE2: the ASCII digits. -/
def isDigit (c : Char) : Bool := decide (48 ≤ c.toNat) && decide (c.toNat ≤ 57)

/-- The positions at which a match of the expression that starts at position
`i` of the subject `s` can end.  `bot` and `eot` are the anchors `^` and `$`
without the multi-line flag: beginning and end of the whole subject.  A
repetition without upper bound needs at most one round per character of the
subject beyond its lower bound. -/
def Re.ends (s : List Char) : Re → Nat → List Nat
  | .empty, i => [i]
  | .char c, i => if s.get? i = some c then [i + 1] else []
  | .digit, i =>
    match s.get? i with
    | some d => if isDigit d then [i + 1] else []
    | none => []
  | .bot, i => if i = 0 then [i] else []
  | .eot, i => if i = s.length then [i] else []
  | .seq a b, i => (Re.ends s a i).flatMap (Re.ends s b)
  | .alt a b, i => Re.ends s a i ++ Re.ends s b i
  | .rep a lo hi, i =>
    let step := fun js : List Nat => js.flatMap (Re.ends s a)
    let extra := match hi with
      | some h => h - lo
      | none => s.length
    (List.range (extra + 1)).flatMap (fun k => Nat.iterate step (lo + k) [i])

/-- `(*Regexp).Match`: whether the subject contains any match. -/
def Re.Match (r : Re) (s : List Char) : Bool :=
  (List.range (s.length + 1)).any (fun i => !(Re.ends s r i).isEmpty)

/-- Parser state for one open group: the finished alternatives and the items
of the alternative being read, the latest first. -/
structure Frame where
  alts : List Re
  items : List Re

/-- The concatenation of the items read, given latest first. -/
def seqOf (items : List Re) : Re := items.foldl (fun acc x => Re.seq x acc) Re.empty

/-- The expression of a group once it is closed. -/
def Frame.toRe (f : Frame) : Re := f.alts.foldl (fun acc a => Re.alt a acc) (seqOf f.items)

/-- One more item in the alternative being read. -/
def Frame.push (f : Frame) (r : Re) : Frame := { f with items := r :: f.items }

/-- The number written by a run of decimal digits. -/
def digitsValue (ds : List Char) : Nat := ds.foldl (fun n d => 10 * n + (d.toNat - 48)) 0

/-- The bounds of a counted repetition, read behind the opening brace. -/
def parseBounds (input : List Char) : Option (Nat × Option Nat × List Char) :=
  match input.span isDigit with
  | ([], _) => none
  | (ds, '\x7d' :: rest) => some (digitsValue ds, some (digitsValue ds), rest)
  | (ds, ',' :: rest) =>
    match rest.span isDigit with
    | ([], '\x7d' :: rest2) => some (digitsValue ds, none, rest2)
    | (es, '\x7d' :: rest2) => some (digitsValue ds, some (digitsValue es), rest2)
    | _ => none
  | _ => none

/-- The characters with a meaning of their own in a pattern. -/
def isMeta (c : Char) : Bool :=
  c ∈ ['\\', '.', '+', '*', '?', '(', ')', '|', '[', ']', '\x7b', '\x7d', '^', '$']

/-- Repetition counts are ordered and at most 1000. -/
def boundsOk (lo : Nat) : Option Nat → Bool
  | some h => decide (lo ≤ h) && decide (h ≤ 1000)
  | none => decide (lo ≤ 1000)

/-- A repetition operator applies to the item just read, once. -/
def quantify (cur : Frame) (rep : Bool) (lo : Nat) (hi : Option Nat) : Option Frame :=
  match rep, cur.items with
  | true, x :: xs =>
    if boundsOk lo hi then some { cur with items := Re.rep x lo hi :: xs } else none
  | _, _ => none

/-- The parser of the fragment: literals, `\d`, escaped punctuation, `^`, `$`,
groups, `|`, `?`, `*`, `+` and counted repetition.  The result is `none` for
a malformed pattern and for a pattern outside the fragment. -/
def parseLoop : Nat → List Frame → Frame → Bool → List Char → Option Re
  | 0, _, _, _, _ => none
  | fuel + 1, stack, cur, rep, input =>
    match input with
    | [] => if stack.isEmpty then some cur.toRe else none
    | '(' :: rest => parseLoop fuel (cur :: stack) ⟨[], []⟩ false rest
    | ')' :: rest =>
      match stack with
      | [] => none
      | parent :: stack2 => parseLoop fuel stack2 (parent.push cur.toRe) true rest
    | '|' :: rest => parseLoop fuel stack ⟨seqOf cur.items :: cur.alts, []⟩ false rest
    | '^' :: rest => parseLoop fuel stack (cur.push Re.bot) false rest
    | '$' :: rest => parseLoop fuel stack (cur.push Re.eot) false rest
    | '\\' :: 'd' :: rest => parseLoop fuel stack (cur.push Re.digit) true rest
    | '\\' :: c :: rest =>
      if isMeta c || c = '-' then parseLoop fuel stack (cur.push (Re.char c)) true rest else none
    | '?' :: rest =>
      match quantify cur rep 0 (some 1) with
      | some f => parseLoop fuel stack f false rest
      | none => none
    | '*' :: rest =>
      match quantify cur rep 0 none with
      | some f => parseLoop fuel stack f false rest
      | none => none
    | '+' :: rest =>
      match quantify cur rep 1 none with
      | some f => parseLoop fuel stack f false rest
      | none => none
    | '\x7b' :: rest =>
      match parseBounds rest with
      | some (lo, hi, rest2) =>
        match quantify cur rep lo hi with
        | some f => parseLoop fuel stack f false rest2
        | none => none
      | none => none
    | c :: rest =>
      if isMeta c then none else parseLoop fuel stack (cur.push (Re.char c)) true rest

/-- `regexp.Compile` on the fragment. -/
def Re.Compile (pattern : String) : Option Re :=
  parseLoop (pattern.length + 1) [] ⟨[], []⟩ false pattern.data

/-- What `MatchPostalCode` uses of package `regexp`: the compiled form of a
pattern (`none` when the pattern does not compile), the spans of a subject
that an expression matches, and the search `Match`. -/
structure RegexpEngine where
  Regexp : Type
  Compile : String → Option Regexp
  MatchesSpan : Regexp → List Char → Nat → Nat → Prop
  Match : Regexp → List Char → Bool

/-- The contract of `Match`: it reports whether some span of the subject,
between positions `i ≤ j`, is matched by the expression. -/
def RegexpEngine.Lawful (E : RegexpEngine) : Prop :=
  ∀ (r : E.Regexp) (s : List Char),
    E.Match r s = true ↔ ∃ i j, i ≤ j ∧ j ≤ s.length ∧ E.MatchesSpan r s i j

/-- The executable engine of the fragment. -/
def re2Fragment : RegexpEngine where
  Regexp := Re
  Compile := Re.Compile
  MatchesSpan := fun r s i j => j ∈ Re.ends s r i
  Match := Re.Match

/-- `func (c *Country) HasPostalCode() bool` -/
def Country.HasPostalCode (c : Country) : Bool :=
  decide (c.PostalCodeFormat ≠ "")

/-- `func (c *Country) MatchPostalCode(postalCode string) bool`.  The result
is `none` when the call panics, which `regexp.MustCompile` does on a pattern
that does not compile. -/
def Country.MatchPostalCode (E : RegexpEngine) (c : Country) (postalCode : String) :
    Option Bool :=
  if !c.HasPostalCode then some false
  else
    match E.Compile c.PostalCodeFormat with
    | none => none
    | some r => some (E.Match r postalCode.data)

/-! ## Queries on a country (`country.go`) -/

/-- `func (c *Country) Subdivision(code string) Subdivision` -/
def Country.Subdivision (c : Country) (code : String) : Countries.Subdivision :=
  GoMap.get c.Subdivisions code

/-- The loop of `SubdivisionByName` over the entries in enumeration order. -/
def subdivisionByNameLoop : List (String × Subdivision) → String → Subdivision
  | [], _ => GoZero.zero
  | (_, s) :: rest, name => if s.Name = name then s else subdivisionByNameLoop rest name

/-- `func (c *Country) SubdivisionByName(name string) Subdivision` -/
def Country.SubdivisionByName (c : Country) (name : String) : Countries.Subdivision :=
  subdivisionByNameLoop c.Subdivisions name

/-- `func (c *Country) FormatAddress(recipient, street, postalCode, city, region string) string` -/
def Country.FormatAddress (c : Country) (recipient street postalCode city region : String) :
    String :=
  let subdivision := c.Subdivision region
  let subdivision := if subdivision.Name = "" then c.SubdivisionByName region else subdivision
  let regionName := subdivision.Name
  let regionShortName := subdivision.Code
  let regionName := if regionName = "" then region else regionName
  let regionShortName := if regionShortName = "" then region else regionShortName
  let a := c.AddressFormat
  let a := ReplaceAll a "\x7b\x7brecipient\x7d\x7d" recipient
  let a := ReplaceAll a "\x7b\x7bstreet\x7d\x7d" street
  let a := ReplaceAll a "\x7b\x7bpostalcode\x7d\x7d" postalCode
  let a := ReplaceAll a "\x7b\x7bcity\x7d\x7d" city
  let a := ReplaceAll a "\x7b\x7bregion\x7d\x7d" regionName
  let a := ReplaceAll a "\x7b\x7bregion_short\x7d\x7d" regionShortName
  let a := ReplaceAll a "\x7b\x7bcountry\x7d\x7d" c.ISOShortName
  a

/-- `func (c *Country) GDPRCompliant() bool` -/
def Country.GDPRCompliant (c : Country) : Bool :=
  c.EEAMember || decide (c.Alpha2 = "GB")

/-! ## Package `strings`, continued, and the flag table -/

/-- The lower-case form of one code point: ASCII capitals are shifted, other
ASCII is kept, and beyond ASCII the mapping is `unicode.ToLower`, which is
taken as the parameter `unicodeToLower`. -/
def toLowerRune (unicodeToLower : Char → Char) (r : Char) : Char :=
  if r.toNat < 128 then
    if 65 ≤ r.toNat ∧ r.toNat ≤ 90 then Char.ofNat (r.toNat + 32) else r
  else unicodeToLower r

/-- `strings.ToLower(s)`, code point by code point. -/
def ToLower (unicodeToLower : Char → Char) (s : String) : String :=
  ⟨s.data.map (toLowerRune unicodeToLower)⟩

/-- `var flagsSlice`: letter and flag code point.  The flag of the letter at
offset `n` from `a` is the regional indicator U+1F1E6 + `n`; `country.go`
holds each flag literal as the Windows-1252 reading of its four UTF-8 bytes
(F0 9F 87 A6 for the first), which decodes to these code points. -/
def flagsSlice : List (Char × Char) :=
  [('a', Char.ofNat 0x1F1E6), ('b', Char.ofNat 0x1F1E7), ('c', Char.ofNat 0x1F1E8),
   ('d', Char.ofNat 0x1F1E9), ('e', Char.ofNat 0x1F1EA), ('f', Char.ofNat 0x1F1EB),
   ('g', Char.ofNat 0x1F1EC), ('h', Char.ofNat 0x1F1ED), ('i', Char.ofNat 0x1F1EE),
   ('j', Char.ofNat 0x1F1EF), ('k', Char.ofNat 0x1F1F0), ('l', Char.ofNat 0x1F1F1),
   ('m', Char.ofNat 0x1F1F2), ('n', Char.ofNat 0x1F1F3), ('o', Char.ofNat 0x1F1F4),
   ('p', Char.ofNat 0x1F1F5), ('q', Char.ofNat 0x1F1F6), ('r', Char.ofNat 0x1F1F7),
   ('s', Char.ofNat 0x1F1F8), ('t', Char.ofNat 0x1F1F9), ('u', Char.ofNat 0x1F1FA),
   ('v', Char.ofNat 0x1F1FB), ('w', Char.ofNat 0x1F1FC), ('x', Char.ofNat 0x1F1FD),
   ('y', Char.ofNat 0x1F1FE), ('z', Char.ofNat 0x1F1FF)]

/-- `var flagsCodePoints`, as filled by `init` from `flagsSlice`. -/
def flagsCodePoints : GoMap Char Char :=
  flagsSlice.foldl (fun m entry => GoMap.set m entry.1 entry.2) []

/-- `func (c *Country) EmojiFlag() string` -/
def Country.EmojiFlag (unicodeToLower : Char → Char) (c : Country) : String :=
  ⟨(ToLower unicodeToLower c.Alpha2).data.foldl
    (fun flag r => flag ++ [GoMap.get flagsCodePoints r]) []⟩

/-- An ASCII letter, upper or lower case. -/
def isASCIILetter (r : Char) : Prop :=
  (65 ≤ r.toNat ∧ r.toNat ≤ 90) ∨ (97 ≤ r.toNat ∧ r.toNat ≤ 122)

instance isASCIILetter.decidable (r : Char) : Decidable (isASCIILetter r) :=
  inferInstanceAs (Decidable ((65 ≤ r.toNat ∧ r.toNat ≤ 90) ∨ (97 ≤ r.toNat ∧ r.toNat ≤ 122)))

/-! ## Aggregation (`loadCountryData`, `utils.go`) -/

/-- `type CountryData struct` -/
structure CountryData where
  All : List Country
  Alpha2 : List String
  Regions : List String
  Subregions : List String
deriving DecidableEq, Repr

/-- The comparison `<` of Go on strings, on the code points: on UTF-8 text the
byte-wise order is the order of the code point sequences. -/
def stringLess : List Char → List Char → Bool
  | [], [] => false
  | [], _ :: _ => true
  | _ :: _, [] => false
  | a :: as, b :: bs =>
    if a.toNat < b.toNat then true
    else if b.toNat < a.toNat then false
    else stringLess as bs

/-- `sort.Slice(x, less)`: the insertion sort that package `sort` runs on a
short slice (at most twelve elements in its current implementation), which
moves an element to the left while it is less than its predecessor, so that
elements that compare equal keep their order.  On a longer slice `sort.Slice`
leaves the order of elements that compare equal unspecified, and this
rendering keeps it; when no two elements compare equal every sorting
algorithm returns the same list. -/
def sortSlice {α : Type} (less : α → α → Bool) (x : List α) : List α :=
  x.insertionSort (fun a b => less b a = false)

/-- `func alpha2(countries []Country) []string` -/
def alpha2 (countries : List Country) : List String :=
  countries.map (fun c => c.Alpha2)

/-- `func regions(countries []Country) []string`.  The keys of `set` are
collected in the enumeration order of the map, here the order of insertion. -/
def regions (countries : List Country) : List String :=
  let set : GoMap String Unit :=
    countries.foldl (fun set c => if c.Region ≠ "" then GoMap.set set c.Region () else set) []
  let result := set.map Prod.fst
  sortSlice (fun a b => stringLess a.data b.data) result

/-- `func subregions(countries []Country) []string` -/
def subregions (countries : List Country) : List String :=
  let set : GoMap String Unit :=
    countries.foldl
      (fun set c => if c.Subregion ≠ "" then GoMap.set set c.Subregion () else set) []
  let result := set.map Prod.fst
  sortSlice (fun a b => stringLess a.data b.data) result

/-- The five maps that the loaders of `utils.go` fill, as `loadCountryData`
holds them at line 59.  A `*Subdivision` of `allSubdivisions` is given by the
record it points to; the pointers of the map are non-nil and distinct. -/
structure Sources where
  allCountries : GoMap String Country
  allSubdivisions : GoMap String (GoMap String Subdivision)
  allTranslations : GoMap String (GoMap String String)
  allCapitals : GoMap String String
  allTimezones : GoMap String (List String)

/-- Lines 66 to 68: the record behind the pointer after the conditional
assignment `subdivision.Capital = true`. -/
def markCapital (capital : String) (subdivision : Subdivision) : Subdivision :=
  if subdivision.Type_ = "metropolitan_city" ∧ GoMap.get subdivision.Translations "en" = capital
  then { subdivision with Capital := true }
  else subdivision

/-- Lines 63 to 75, the body of the loop over `allCountries`: the record that
is appended to `all` for the entry `countryAlpha2, c`. -/
def mergeCountry (src : Sources) (countryAlpha2 : String) (c : Country) : Country :=
  let capital := GoMap.get src.allCapitals countryAlpha2
  let subdivisions : GoMap String Subdivision :=
    (GoMap.get src.allSubdivisions countryAlpha2).foldl
      (fun m entry => GoMap.set m entry.1 (markCapital capital entry.2)) []
  let translations : GoMap String String :=
    src.allTranslations.foldl
      (fun m entry => GoMap.set m entry.1 (GoMap.get entry.2 countryAlpha2)) []
  { c with
    Capital := capital
    Subdivisions := subdivisions
    Timezones := GoMap.get src.allTimezones countryAlpha2
    Translations := translations }

/-- `func loadCountryData`, lines 60 to 93, as a function of the five loaded
maps. -/
def loadCountryData (src : Sources) : CountryData :=
  let all := src.allCountries.map (fun entry => mergeCountry src entry.1 entry.2)
  let all := sortSlice (fun a b => stringLess a.Alpha2.data b.Alpha2.data) all
  { All := all, Alpha2 := alpha2 all, Regions := regions all, Subregions := subregions all }

/-- Lines 65 to 70 for one country, seen from the subdivisions source: the
records behind the pointers of `allSubdivisions[countryAlpha2]` after the
inner loop has run over them. -/
def writeCapitals (allCapitals : GoMap String String)
    (allSubdivisions : GoMap String (GoMap String Subdivision)) (countryAlpha2 : String) :
    GoMap String (GoMap String Subdivision) :=
  match GoMap.find allSubdivisions countryAlpha2 with
  | some subdivisions =>
    GoMap.set allSubdivisions countryAlpha2
      (subdivisions.map
        (fun entry => (entry.1, markCapital (GoMap.get allCapitals countryAlpha2) entry.2)))
  | none => allSubdivisions

/-- Lines 62 to 77 with the records behind the pointers as state: the list
`all` before it is sorted, and the subdivisions source.  Each iteration reads
the records as the earlier iterations left them. -/
def aggregateLoop (src : Sources) :
    List (String × Country) → List Country × GoMap String (GoMap String Subdivision) →
      List Country × GoMap String (GoMap String Subdivision)
  | [], state => state
  | (countryAlpha2, c) :: rest, (all, allSubdivisions) =>
    aggregateLoop src rest
      (all ++ [mergeCountry { src with allSubdivisions := allSubdivisions } countryAlpha2 c],
       writeCapitals src.allCapitals allSubdivisions countryAlpha2)

/-- The five maps as `loadCountryData` leaves them at line 93. -/
def sourcesAfter (src : Sources) : Sources :=
  { src with
    allSubdivisions := (aggregateLoop src src.allCountries ([], src.allSubdivisions)).2 }

/-- Every table of the subdivisions source is as loaded, or as loaded with
the capital flags of its country written. -/
def ReadsStable (src : Sources) (subs : GoMap String (GoMap String Subdivision)) : Prop :=
  ∀ k, GoMap.find subs k = GoMap.find src.allSubdivisions k ∨
    GoMap.find subs k = (GoMap.find src.allSubdivisions k).map
      (fun m => m.map (fun entry => (entry.1, markCapital (GoMap.get src.allCapitals k) entry.2)))

/-! ## Lookup and filters over the dataset (`utils.go`, `country.go`) -/

/-- The 249 cases of the switch of `Get` (`utils.go`, lines 167 to 666), in
the order of the source: the code of the case and the index into `Data.All`
of the value it returns. -/
def getCases : List (String × Nat) :=
  [("AD", 0), ("AE", 1), ("AF", 2), ("AG", 3), ("AI", 4), ("AL", 5),
   ("AM", 6), ("AO", 7), ("AQ", 8), ("AR", 9), ("AS", 10), ("AT", 11),
   ("AU", 12), ("AW", 13), ("AX", 14), ("AZ", 15), ("BA", 16), ("BB", 17),
   ("BD", 18), ("BE", 19), ("BF", 20), ("BG", 21), ("BH", 22), ("BI", 23),
   ("BJ", 24), ("BL", 25), ("BM", 26), ("BN", 27), ("BO", 28), ("BQ", 29),
   ("BR", 30), ("BS", 31), ("BT", 32), ("BV", 33), ("BW", 34), ("BY", 35),
   ("BZ", 36), ("CA", 37), ("CC", 38), ("CD", 39), ("CF", 40), ("CG", 41),
   ("CH", 42), ("CI", 43), ("CK", 44), ("CL", 45), ("CM", 46), ("CN", 47),
   ("CO", 48), ("CR", 49), ("CU", 50), ("CV", 51), ("CW", 52), ("CX", 53),
   ("CY", 54), ("CZ", 55), ("DE", 56), ("DJ", 57), ("DK", 58), ("DM", 59),
   ("DO", 60), ("DZ", 61), ("EC", 62), ("EE", 63), ("EG", 64), ("EH", 65),
   ("ER", 66), ("ES", 67), ("ET", 68), ("FI", 69), ("FJ", 70), ("FK", 71),
   ("FM", 72), ("FO", 73), ("FR", 74), ("GA", 75), ("GB", 76), ("GD", 77),
   ("GE", 78), ("GF", 79), ("GG", 80), ("GH", 81), ("GI", 82), ("GL", 83),
   ("GM", 84), ("GN", 85), ("GP", 86), ("GQ", 87), ("GR", 88), ("GS", 89),
   ("GT", 90), ("GU", 91), ("GW", 92), ("GY", 93), ("HK", 94), ("HM", 95),
   ("HN", 96), ("HR", 97), ("HT", 98), ("HU", 99), ("ID", 100), ("IE", 101),
   ("IL", 102), ("IM", 103), ("IN", 104), ("IO", 105), ("IQ", 106), ("IR", 107),
   ("IS", 108), ("IT", 109), ("JE", 110), ("JM", 111), ("JO", 112), ("JP", 113),
   ("KE", 114), ("KG", 115), ("KH", 116), ("KI", 117), ("KM", 118), ("KN", 119),
   ("KP", 120), ("KR", 121), ("KW", 122), ("KY", 123), ("KZ", 124), ("LA", 125),
   ("LB", 126), ("LC", 127), ("LI", 128), ("LK", 129), ("LR", 130), ("LS", 131),
   ("LT", 132), ("LU", 133), ("LV", 134), ("LY", 135), ("MA", 136), ("MC", 137),
   ("MD", 138), ("ME", 139), ("MF", 140), ("MG", 141), ("MH", 142), ("MK", 143),
   ("ML", 144), ("MM", 145), ("MN", 146), ("MO", 147), ("MP", 148), ("MQ", 149),
   ("MR", 150), ("MS", 151), ("MT", 152), ("MU", 153), ("MV", 154), ("MW", 155),
   ("MX", 156), ("MY", 157), ("MZ", 158), ("NA", 159), ("NC", 160), ("NE", 161),
   ("NF", 162), ("NG", 163), ("NI", 164), ("NL", 165), ("NO", 166), ("NP", 167),
   ("NR", 168), ("NU", 169), ("NZ", 170), ("OM", 171), ("PA", 172), ("PE", 173),
   ("PF", 174), ("PG", 175), ("PH", 176), ("PK", 177), ("PL", 178), ("PM", 179),
   ("PN", 180), ("PR", 181), ("PS", 182), ("PT", 183), ("PW", 184), ("PY", 185),
   ("QA", 186), ("RE", 187), ("RO", 188), ("RS", 189), ("RU", 190), ("RW", 191),
   ("SA", 192), ("SB", 193), ("SC", 194), ("SD", 195), ("SE", 196), ("SG", 197),
   ("SH", 198), ("SI", 199), ("SJ", 200), ("SK", 201), ("SL", 202), ("SM", 203),
   ("SN", 204), ("SO", 205), ("SR", 206), ("SS", 207), ("ST", 208), ("SV", 209),
   ("SX", 210), ("SY", 211), ("SZ", 212), ("TC", 213), ("TD", 214), ("TF", 215),
   ("TG", 216), ("TH", 217), ("TJ", 218), ("TK", 219), ("TL", 220), ("TM", 221),
   ("TN", 222), ("TO", 223), ("TR", 224), ("TT", 225), ("TV", 226), ("TW", 227),
   ("TZ", 228), ("UA", 229), ("UG", 230), ("UM", 231), ("US", 232), ("UY", 233),
   ("UZ", 234), ("VA", 235), ("VC", 236), ("VE", 237), ("VG", 238), ("VI", 239),
   ("VN", 240), ("VU", 241), ("WF", 242), ("WS", 243), ("YE", 244), ("YT", 245),
   ("ZA", 246), ("ZM", 247), ("ZW", 248)]

/-- Whether each string is less than the next one. -/
def ascending : List (List Char) → Bool
  | [] => true
  | [_] => true
  | a :: b :: rest => stringLess a b && ascending (b :: rest)

/-- The switch of `Get`: the index of the case that matches. -/
def getCase (alpha2 : String) : Option Nat := GoMap.find getCases alpha2

/-- What a call of `Get` does: it returns nil, or the address of the element
`i` of `Data.All`, which holds the record `c`, or it panics because the index
is out of range. -/
inductive GetResult where
  | null
  | ref (i : Nat) (c : Country)
  | panics
deriving DecidableEq, Repr

/-- `func Get(alpha2 string) *Country`, the package variable `Data` being a
parameter. -/
def Get (Data : CountryData) (alpha2 : String) : GetResult :=
  match getCase alpha2 with
  | some i =>
    match Data.All[i]? with
    | some c => GetResult.ref i c
    | none => GetResult.panics
  | none => GetResult.null

/-- A slice value of Go: `none` is the nil slice. -/
abbrev GoSlice (α : Type) := Option (List α)

/-- `append(s, x)` -/
def GoSlice.append {α : Type} : GoSlice α → α → GoSlice α
  | none, x => some [x]
  | some l, x => some (l ++ [x])

/-- `func InEU() []Country`, the package variable `Data` being a parameter. -/
def InEU (Data : CountryData) : GoSlice Country :=
  Data.All.foldl (fun result c => if c.EUMember then GoSlice.append result c else result)
    (some [])

/-- `func InRegion(region string) []Country` -/
def InRegion (Data : CountryData) (region : String) : GoSlice Country :=
  Data.All.foldl
    (fun result c => if c.Region = region then GoSlice.append result c else result) (some [])

/-- `func InSubregion(subregion string) []Country` -/
def InSubregion (Data : CountryData) (subregion : String) : GoSlice Country :=
  Data.All.foldl
    (fun result c => if c.Subregion = subregion then GoSlice.append result c else result)
    (some [])

/-! ## Loading the timezones (`utils.go`) -/

/-- The grouping loop of `loadTimezones` (lines 99 to 101) over the parsed
rows.  The result is `none` when a row has fewer than three fields and the
index expression panics. -/
def loadTimezonesLoop :
    List (List String) → GoMap String (List String) → Option (GoMap String (List String))
  | [], out => some out
  | row :: records, out =>
    match row[1]?, row[2]? with
    | some code, some zone =>
      loadTimezonesLoop records (GoMap.set out code (GoMap.get out code ++ [zone]))
    | _, _ => none

/-- The zone identifiers of the rows that carry the code `k`, in row order. -/
def zonesOf (records : List (List String)) (k : String) : List String :=
  (records.filter (fun row => decide (row[1]? = some k))).filterMap (fun row => row[2]?)

/-- Parsed rows of the witness for the grouping loop; the last row has a
fourth field and repeats a zone. -/
def tzRows : List (List String) :=
  [["1", "IT", "Europe/Rome"], ["2", "US", "America/New_York"], ["3", "US", "America/Chicago"],
   ["4", "US", "America/New_York", "extra"]]

/-- The records that a filter returns, taken over every entry of an index. -/
def concatOver (index : List String) (filter : String → GoSlice Country) : List Country :=
  index.flatMap (fun r => (filter r).getD [])

/-- Country with the code "F1". -/
def f1Country : Country := { (GoZero.zero : Country) with Alpha2 := "F1" }

/-! ## Vocabulary for the statements about `FormatAddress` -/

/-- The seven `ReplaceAll` calls of `FormatAddress` (lines 260 to 268), as a
function of the template and of the seven values that are substituted. -/
def substituteTokens (a recipient street postalCode city regionName regionShortName
    country : String) : String :=
  ReplaceAll (ReplaceAll (ReplaceAll (ReplaceAll (ReplaceAll (ReplaceAll (ReplaceAll a
    "\x7b\x7brecipient\x7d\x7d" recipient)
    "\x7b\x7bstreet\x7d\x7d" street)
    "\x7b\x7bpostalcode\x7d\x7d" postalCode)
    "\x7b\x7bcity\x7d\x7d" city)
    "\x7b\x7bregion\x7d\x7d" regionName)
    "\x7b\x7bregion_short\x7d\x7d" regionShortName)
    "\x7b\x7bcountry\x7d\x7d" country

/-- The value `regionName` of `FormatAddress` after lines 248 to 256: the name
of the subdivision found by code, else by name, else the raw input. -/
def Country.regionName (c : Country) (region : String) : String :=
  let subdivision := c.Subdivision region
  let subdivision := if subdivision.Name = "" then c.SubdivisionByName region else subdivision
  if subdivision.Name = "" then region else subdivision.Name

/-- The value `regionShortName` of `FormatAddress` after lines 248 to 259: the
code of the subdivision found by code, else by name, else the raw input. -/
def Country.regionShortName (c : Country) (region : String) : String :=
  let subdivision := c.Subdivision region
  let subdivision := if subdivision.Name = "" then c.SubdivisionByName region else subdivision
  if subdivision.Code = "" then region else subdivision.Code

/-- The seven placeholders of an address template. -/
inductive Token where
  | recipient | street | postalcode | city | region | region_short | country
deriving DecidableEq, Repr

/-- The characters between the braces of a token. -/
def Token.name : Token → List Char
  | .recipient => "recipient".data
  | .street => "street".data
  | .postalcode => "postalcode".data
  | .city => "city".data
  | .region => "region".data
  | .region_short => "region_short".data
  | .country => "country".data

/-- The characters of a token: its name between two pairs of braces. -/
def Token.chars (t : Token) : List Char :=
  '\x7b' :: '\x7b' :: (t.name ++ ['\x7d', '\x7d'])

/-- The token as the string that `FormatAddress` searches for. -/
def Token.text (t : Token) : String := ⟨t.chars⟩

/-- The position of a token in the order of the seven `ReplaceAll` calls. -/
def Token.index : Token → Nat
  | .recipient => 0 | .street => 1 | .postalcode => 2 | .city => 3
  | .region => 4 | .region_short => 5 | .country => 6

/-- The tokens in the order of substitution. -/
def Token.all : List Token :=
  [.recipient, .street, .postalcode, .city, .region, .region_short, .country]

/-- A template read as a sequence of pieces: single characters and tokens. -/
inductive Piece where
  | text (c : Char)
  | token (t : Token)
deriving DecidableEq, Repr

/-- The characters a piece stands for in the template. -/
def Piece.chars : Piece → List Char
  | .text c => [c]
  | .token t => t.chars

/-- The characters of a sequence of pieces. -/
def render (ps : List Piece) : List Char := ps.flatMap Piece.chars

/-- A piece is plain when it is a token or a character other than the opening
brace: in a sequence of plain pieces, opening braces occur in tokens only. -/
def Piece.plain : Piece → Prop
  | .text c => c ≠ '\x7b'
  | .token _ => True

/-- A piece of the value of token `t` is inert when it is a character other
than the opening brace, or a token substituted no later than `t`. -/
def Piece.inert (t : Token) : Piece → Prop
  | .text c => c ≠ '\x7b'
  | .token u => u.index ≤ t.index

/-- The characters shown for a piece once every token has its value. -/
def Piece.filled (val : Token → List Char) : Piece → List Char
  | .text c => [c]
  | .token t => val t

/-- The value that `FormatAddress` substitutes for each token. -/
def addressValues (c : Country) (recipient street postalCode city region : String) :
    Token → List Char
  | .recipient => recipient.data
  | .street => street.data
  | .postalcode => postalCode.data
  | .city => city.data
  | .region => (c.regionName region).data
  | .region_short => (c.regionShortName region).data
  | .country => c.ISOShortName.data

/-- The reading of the specification: the template with every occurrence of
each of the seven tokens replaced by its value in a single pass from left to
right, every other character unchanged.  `skip` counts the characters of the
token just replaced that are still to be dropped. -/
def replaceTokensOnce (val : Token → List Char) : List Char → Nat → List Char
  | [], _ => []
  | _ :: s, skip + 1 => replaceTokensOnce val s skip
  | c :: s, 0 =>
    match Token.all.find? (fun t => t.chars.isPrefixOf (c :: s)) with
    | some t => val t ++ replaceTokensOnce val s (t.chars.length - 1)
    | none => c :: replaceTokensOnce val s 0

/-- Proof device: the pieces after the token `t` has been replaced by `vp`. -/
def substPieces (t : Token) (vp : List Piece) (ps : List Piece) : List Piece :=
  ps.flatMap (fun p => if p = Piece.token t then vp else [p])

/-- Proof device: a piece after the first `k` tokens have been replaced. -/
def fillBelow (val : Token → List Piece) (k : Nat) : Piece → List Piece
  | .text c => [.text c]
  | .token t => if t.index < k then val t else [.token t]

instance Piece.decidablePlain : (p : Piece) → Decidable p.plain
  | .text c => inferInstanceAs (Decidable (c ≠ '\x7b'))
  | .token _ => inferInstanceAs (Decidable True)

instance Piece.decidableInert (t : Token) : (p : Piece) → Decidable (p.inert t)
  | .text c => inferInstanceAs (Decidable (c ≠ '\x7b'))
  | .token u => inferInstanceAs (Decidable (u.index ≤ t.index))

/-- Country of the address example: the four-line template and no subdivisions. -/
def usCountry : Country :=
  { (GoZero.zero : Country) with
    AddressFormat := "\x7b\x7brecipient\x7d\x7d\n\x7b\x7bstreet\x7d\x7d\n\x7b\x7bpostalcode\x7d\x7d \x7b\x7bcity\x7d\x7d\n\x7b\x7bcountry\x7d\x7d"
    ISOShortName := "United States" }

/-- The template of `usCountry`, piece by piece. -/
def usPieces : List Piece :=
  [.token .recipient, .text '\n', .token .street, .text '\n', .token .postalcode, .text ' ',
   .token .city, .text '\n', .token .country]

/-- Country of the counterexample to C4: every token occurs, and the template
also holds the text "\x7bstreet\x7d\x7d" right behind the recipient token. -/
def c4Country : Country :=
  { (GoZero.zero : Country) with
    AddressFormat := "\x7b\x7brecipient\x7d\x7d\x7bstreet\x7d\x7d \x7b\x7bstreet\x7d\x7d \x7b\x7bpostalcode\x7d\x7d \x7b\x7bcity\x7d\x7d \x7b\x7bregion\x7d\x7d \x7b\x7bregion_short\x7d\x7d \x7b\x7bcountry\x7d\x7d"
    ISOShortName := "N" }

/-- Country of the counterexample to C5, the example of the claim. -/
def c5Country : Country :=
  { (GoZero.zero : Country) with AddressFormat := "\x7b\x7brecipient\x7d\x7d" }

/-- Country of the witness for C5: the street token between brackets. -/
def c5Street : Country :=
  { (GoZero.zero : Country) with AddressFormat := "[\x7b\x7bstreet\x7d\x7d]" }

/-- Values of the witness for C5: the street holds the recipient token and its
own token. -/
def c5Values : Token → List Piece
  | .recipient => [.text 'X']
  | .street => [.token .recipient, .text '+', .token .street]
  | _ => []

/-- An engine whose `Compile` rejects every pattern. -/
def failingEngine : RegexpEngine where
  Regexp := Unit
  Compile := fun _ => none
  MatchesSpan := fun _ _ _ _ => False
  Match := fun _ _ => false

/-- Country of the postal-code example. -/
def usZip : Country :=
  { (GoZero.zero : Country) with PostalCodeFormat := "^\\d\x7b5\x7d(-\\d\x7b4\x7d)?$" }

/-- Country whose format is five digits, without anchors. -/
def fiveDigits : Country :=
  { (GoZero.zero : Country) with PostalCodeFormat := "\\d\x7b5\x7d" }

/-- Country with the code "FR". -/
def frCountry : Country := { (GoZero.zero : Country) with Alpha2 := "FR" }

/-- Sources of the counterexample to C9: a subdivision of type "region" whose
record already carries the capital flag. -/
def c9Sources : Sources :=
  { allCountries := [("IT", { (GoZero.zero : Country) with Alpha2 := "IT" })]
    allSubdivisions :=
      [("IT", [("62", { (GoZero.zero : Subdivision) with
                          Name := "Lazio", Code := "62", Type_ := "region", Capital := true,
                          Translations := [("en", "Lazio")] })])]
    allTranslations := []
    allCapitals := [("IT", "Rome")]
    allTimezones := [] }

/-- Sources of the witnesses for the aggregation: Italy with the metropolitan
city of Rome and the region Lazio, both translated "Rome", and a code "ZZ"
that occurs in the capitals and timezones only. -/
def romeSources : Sources :=
  { allCountries := [("IT", { (GoZero.zero : Country) with Alpha2 := "IT" })]
    allSubdivisions :=
      [("IT", [("RM", { (GoZero.zero : Subdivision) with
                          Name := "Roma", Code := "RM", Type_ := "metropolitan_city",
                          Translations := [("en", "Rome")] }),
               ("62", { (GoZero.zero : Subdivision) with
                          Name := "Lazio", Code := "62", Type_ := "region",
                          Translations := [("en", "Rome")] })])]
    allTranslations := [("en", [("IT", "Italy")])]
    allCapitals := [("IT", "Rome"), ("ZZ", "Nowhere")]
    allTimezones := [("IT", ["Europe/Rome"]), ("ZZ", ["Etc/UTC"])] }

/-- Country of the counterexample to C2: one subdivision, stored under "X",
with a name and an empty code. -/
def c2Country : Country :=
  { (GoZero.zero : Country) with
    AddressFormat := "\x7b\x7bregion_short\x7d\x7d"
    Subdivisions := [("X", { (GoZero.zero : Subdivision) with Name := "N" })] }

/-- Country of the witnesses for the region resolution: "LAZ" is a key whose
subdivision has the name "Lazio", a second subdivision is named "LAZ", and a
third has a name and no code. -/
def regionCountry : Country :=
  { (GoZero.zero : Country) with
    AddressFormat := "\x7b\x7bregion\x7d\x7d/\x7b\x7bregion_short\x7d\x7d"
    Subdivisions :=
      [("LAZ", { (GoZero.zero : Subdivision) with Name := "Lazio", Code := "LAZ" }),
       ("LOM", { (GoZero.zero : Subdivision) with Name := "LAZ", Code := "LOM" }),
       ("SAR", { (GoZero.zero : Subdivision) with Name := "Sardegna" })] }

/-- Sources of the witnesses for the derived lists: four countries enumerated
in the order IT, JP, FR, AQ; "JP" and "AQ" occur in the countries source only,
and the German locale has an entry for "IT" only. -/
def worldSources : Sources :=
  { allCountries :=
      [("IT", { (GoZero.zero : Country) with
                  Alpha2 := "IT", Region := "Europe", Subregion := "Southern Europe",
                  EUMember := true }),
       ("JP", { (GoZero.zero : Country) with
                  Alpha2 := "JP", Region := "Asia", Subregion := "Eastern Asia" }),
       ("FR", { (GoZero.zero : Country) with
                  Alpha2 := "FR", Region := "Europe", Subregion := "Western Europe",
                  EUMember := true }),
       ("AQ", { (GoZero.zero : Country) with Alpha2 := "AQ" })]
    allSubdivisions :=
      [("IT", [("RM", { (GoZero.zero : Subdivision) with
                          Name := "Roma", Code := "RM", Type_ := "metropolitan_city",
                          Translations := [("en", "Rome")] })])]
    allTranslations := [("en", [("IT", "Italy"), ("FR", "France")]), ("de", [("IT", "Italien")])]
    allCapitals := [("IT", "Rome"), ("FR", "Paris")]
    allTimezones := [("IT", ["Europe/Rome"]), ("FR", ["Europe/Paris"])] }

/-- A dataset with one record for each code of the table of `Get`, in the
order of the table. -/
def tableData : CountryData :=
  { All := getCases.map (fun e => { (GoZero.zero : Country) with Alpha2 := e.1 })
    Alpha2 := getCases.map Prod.fst
    Regions := []
    Subregions := [] }

/-- The dataset aggregated from a countries source that holds "FR" only. -/
def frData : CountryData :=
  loadCountryData
    { allCountries := [("FR", { (GoZero.zero : Country) with Alpha2 := "FR" })]
      allSubdivisions := []
      allTranslations := []
      allCapitals := []
      allTimezones := [] }

/-- Two records are the same value of Go: they agree in every field, their
maps holding the same entries, whatever the order of enumeration. -/
def Country.sameValue (c d : Country) : Prop :=
  { c with Subdivisions := [], Translations := [] } =
    { d with Subdivisions := [], Translations := [] } ∧
  c.Subdivisions.Perm d.Subdivisions ∧ c.Translations.Perm d.Translations

/-- Sources of the counterexample to C19: two keys whose records carry the
same `Alpha2`. -/
def tiedSources : Sources :=
  { allCountries :=
      [("A", { (GoZero.zero : Country) with Alpha2 := "XX", Alpha3 := "AAA" }),
       ("B", { (GoZero.zero : Country) with Alpha2 := "XX", Alpha3 := "BBB" })]
    allSubdivisions := []
    allTranslations := []
    allCapitals := []
    allTimezones := [] }

/-- The sources `tiedSources`, the countries enumerated in the other order. -/
def tiedSourcesSwapped : Sources :=
  { tiedSources with allCountries := tiedSources.allCountries.reverse }

/-- The sources `worldSources`, every map that the aggregation ranges over
enumerated in another order. -/
def worldSourcesShuffled : Sources :=
  { worldSources with
    allCountries := worldSources.allCountries.reverse
    allTranslations := worldSources.allTranslations.reverse }

/-! ## Theorems -/

/-! ### Region resolution and token substitution -/

theorem formatAddress_eq (c : Country) (recipient street postalCode city region : String) :
    c.FormatAddress recipient street postalCode city region =
      substituteTokens c.AddressFormat recipient street postalCode city
        (c.regionName region) (c.regionShortName region) c.ISOShortName := rfl

theorem goZero_subdivision_name : (GoZero.zero : Subdivision).Name = "" := rfl

theorem goZero_subdivision_code : (GoZero.zero : Subdivision).Code = "" := rfl

/-- Without an entry of that name the scan returns the zero value. -/
theorem subdivisionByNameLoop_none (l : List (String × Subdivision)) (name : String)
    (h : ∀ p ∈ l, p.2.Name ≠ name) : subdivisionByNameLoop l name = GoZero.zero := by
  induction l with
  | nil => rfl
  | cons p rest ih =>
    obtain ⟨k, sd⟩ := p
    have h1 : sd.Name ≠ name := h (k, sd) (List.mem_cons_self _ _)
    have h2 : ∀ q ∈ rest, q.2.Name ≠ name := fun q hq => h q (List.mem_cons_of_mem _ hq)
    simp only [subdivisionByNameLoop, if_neg h1]
    exact ih h2

/-- With an entry of that name the scan returns such an entry. -/
theorem subdivisionByNameLoop_mem (l : List (String × Subdivision)) (name : String)
    (h : ∃ p ∈ l, p.2.Name = name) :
    ∃ p ∈ l, p.2.Name = name ∧ subdivisionByNameLoop l name = p.2 := by
  induction l with
  | nil =>
    obtain ⟨p, hp, _⟩ := h
    cases hp
  | cons q rest ih =>
    obtain ⟨k, sd⟩ := q
    by_cases h1 : sd.Name = name
    · refine ⟨(k, sd), List.mem_cons_self _ _, h1, ?_⟩
      simp only [subdivisionByNameLoop, if_pos h1]
    · have h2 : ∃ p ∈ rest, p.2.Name = name := by
        obtain ⟨p, hp, hn⟩ := h
        rcases List.mem_cons.mp hp with hp | hp
        · subst hp
          exact absurd hn h1
        · exact ⟨p, hp, hn⟩
      obtain ⟨p, hp, hn, he⟩ := ih h2
      refine ⟨p, List.mem_cons_of_mem _ hp, hn, ?_⟩
      simp only [subdivisionByNameLoop, if_neg h1]
      exact he

/-- C2 as stated fails: the subdivision stored under "X" has the non-empty
name "N" and an empty code, and the token for the short region is replaced by
the input "X", not by the (empty) code. -/
theorem C2_counterexample :
    (c2Country.Subdivision "X").Name = "N" ∧
    (c2Country.Subdivision "X").Code = "" ∧
    c2Country.FormatAddress "" "" "" "" "X" = "X" ∧
    substituteTokens c2Country.AddressFormat "" "" "" ""
      (c2Country.Subdivision "X").Name (c2Country.Subdivision "X").Code
      c2Country.ISOShortName = "" := by
  decide

/-- C2 (amended): the region input is resolved by code first and by name only
as a fallback.  When the subdivision stored under the input has a non-empty
name, the region token receives that name and the short-region token its code,
provided the code is non-empty, whatever the names of the other subdivisions.
Otherwise, when exactly one subdivision has the input as its name, the region
token receives that name and the short-region token its code, provided the
code is non-empty. -/
theorem C2_region_code_first (c : Country) (recipient street postalCode city region : String) :
    ((c.Subdivision region).Name ≠ "" → (c.Subdivision region).Code ≠ "" →
      c.FormatAddress recipient street postalCode city region =
        substituteTokens c.AddressFormat recipient street postalCode city
          (c.Subdivision region).Name (c.Subdivision region).Code c.ISOShortName) ∧
    (∀ (k : String) (sd : Subdivision),
      (c.Subdivision region).Name = "" →
      (k, sd) ∈ c.Subdivisions → sd.Name = region →
      (∀ p ∈ c.Subdivisions, p.2.Name = region → p = (k, sd)) →
      sd.Code ≠ "" →
      c.FormatAddress recipient street postalCode city region =
        substituteTokens c.AddressFormat recipient street postalCode city
          sd.Name sd.Code c.ISOShortName) := by
  constructor
  · intro hn hc
    rw [formatAddress_eq]
    simp only [Country.regionName, Country.regionShortName, if_neg hn, if_neg hc]
  · intro k sd h0 hmem hname huniq hc
    obtain ⟨p, hp, hpn, hpe⟩ :=
      subdivisionByNameLoop_mem c.Subdivisions region ⟨(k, sd), hmem, hname⟩
    have hsd : c.SubdivisionByName region = sd := by
      unfold Country.SubdivisionByName
      rw [hpe, huniq p hp hpn]
    rw [formatAddress_eq]
    simp only [Country.regionName, Country.regionShortName, if_pos h0, hsd, if_neg hc]
    by_cases he : sd.Name = ""
    · rw [if_pos he, he, ← hname, he]
    · rw [if_neg he]

/-- C2, at concrete inputs: "LAZ" is resolved through its key although another
subdivision is named "LAZ", and "Lazio" is resolved through its name. -/
theorem C2_region_code_first_witness :
    regionCountry.FormatAddress "" "" "" "" "LAZ" =
      substituteTokens regionCountry.AddressFormat "" "" "" ""
        (regionCountry.Subdivision "LAZ").Name (regionCountry.Subdivision "LAZ").Code
        regionCountry.ISOShortName ∧
    regionCountry.FormatAddress "" "" "" "" "LAZ" = "Lazio/LAZ" ∧
    regionCountry.FormatAddress "" "" "" "" "Lazio" = substituteTokens
      regionCountry.AddressFormat "" "" "" "" "Lazio" "LAZ" regionCountry.ISOShortName ∧
    regionCountry.FormatAddress "" "" "" "" "Lazio" = "Lazio/LAZ" :=
  ⟨(C2_region_code_first regionCountry "" "" "" "" "LAZ").1 (by decide) (by decide),
   by decide,
   (C2_region_code_first regionCountry "" "" "" "" "Lazio").2 "LAZ"
     { (GoZero.zero : Subdivision) with Name := "Lazio", Code := "LAZ" }
     (by decide) (by decide) (by decide) (by decide) (by decide),
   by decide⟩

/-- C3: the two region fallbacks are computed independently.  When the input
is neither a key whose subdivision has a non-empty name nor the name of any
subdivision, both region tokens receive the raw input.  When the subdivision
that resolves (by code, or else by name) has a non-empty name and an empty
code, the region token receives the name and the short-region token the raw
input. -/
theorem C3_region_fallbacks (c : Country) (recipient street postalCode city region : String) :
    ((c.Subdivision region).Name = "" → (∀ p ∈ c.Subdivisions, p.2.Name ≠ region) →
      c.FormatAddress recipient street postalCode city region =
        substituteTokens c.AddressFormat recipient street postalCode city
          region region c.ISOShortName) ∧
    ((c.Subdivision region).Name ≠ "" → (c.Subdivision region).Code = "" →
      c.FormatAddress recipient street postalCode city region =
        substituteTokens c.AddressFormat recipient street postalCode city
          (c.Subdivision region).Name region c.ISOShortName) ∧
    ((c.Subdivision region).Name = "" → (c.SubdivisionByName region).Name ≠ "" →
      (c.SubdivisionByName region).Code = "" →
      c.FormatAddress recipient street postalCode city region =
        substituteTokens c.AddressFormat recipient street postalCode city
          (c.SubdivisionByName region).Name region c.ISOShortName) := by
  refine ⟨?_, ?_, ?_⟩
  · intro h0 hnone
    have hz : c.SubdivisionByName region = GoZero.zero :=
      subdivisionByNameLoop_none c.Subdivisions region hnone
    rw [formatAddress_eq]
    simp only [Country.regionName, Country.regionShortName, if_pos h0, hz, goZero_subdivision_name, goZero_subdivision_code, if_true]
  · intro hn hc
    rw [formatAddress_eq]
    simp only [Country.regionName, Country.regionShortName, if_neg hn, if_pos hc]
  · intro h0 hn hc
    rw [formatAddress_eq]
    simp only [Country.regionName, Country.regionShortName, if_pos h0, if_neg hn, if_pos hc]

/-- C3, at concrete inputs: "Nowhere" resolves to nothing, "SAR" resolves by
code and "Sardegna" by name to a subdivision without a code. -/
theorem C3_region_fallbacks_witness :
    regionCountry.FormatAddress "" "" "" "" "Nowhere" =
      substituteTokens regionCountry.AddressFormat "" "" "" "" "Nowhere" "Nowhere"
        regionCountry.ISOShortName ∧
    regionCountry.FormatAddress "" "" "" "" "Nowhere" = "Nowhere/Nowhere" ∧
    regionCountry.FormatAddress "" "" "" "" "SAR" =
      substituteTokens regionCountry.AddressFormat "" "" "" ""
        (regionCountry.Subdivision "SAR").Name "SAR" regionCountry.ISOShortName ∧
    regionCountry.FormatAddress "" "" "" "" "SAR" = "Sardegna/SAR" ∧
    regionCountry.FormatAddress "" "" "" "" "Sardegna" =
      substituteTokens regionCountry.AddressFormat "" "" "" ""
        (regionCountry.SubdivisionByName "Sardegna").Name "Sardegna"
        regionCountry.ISOShortName ∧
    regionCountry.FormatAddress "" "" "" "" "Sardegna" = "Sardegna/Sardegna" :=
  ⟨(C3_region_fallbacks regionCountry "" "" "" "" "Nowhere").1 (by decide) (by decide),
   by decide,
   (C3_region_fallbacks regionCountry "" "" "" "" "SAR").2.1 (by decide) (by decide),
   by decide,
   (C3_region_fallbacks regionCountry "" "" "" "" "Sardegna").2.2 (by decide) (by decide)
     (by decide),
   by decide⟩

/-! ### Sequential replacement over a template of pieces -/

theorem replaceScan_skip (old new p s : List Char) :
    replaceScan old new (p ++ s) p.length = replaceScan old new s 0 := by
  induction p with
  | nil => rfl
  | cons c p ih => simpa [replaceScan] using ih

theorem replaceScan_match (c : Char) (o new s : List Char) :
    replaceScan (c :: o) new ((c :: o) ++ s) 0 = new ++ replaceScan (c :: o) new s 0 := by
  have h : (c :: o).isPrefixOf (c :: (o ++ s)) = true := by
    rw [List.isPrefixOf_iff_prefix]
    exact List.prefix_append (c :: o) s
  show replaceScan (c :: o) new (c :: (o ++ s)) 0 = _
  rw [replaceScan, if_pos h]
  show new ++ replaceScan (c :: o) new (o ++ s) o.length = _
  rw [replaceScan_skip]

theorem replaceScan_text (c : Char) (o new s : List Char) (hc : c ≠ '\x7b') :
    replaceScan ('\x7b' :: o) new (c :: s) 0 = c :: replaceScan ('\x7b' :: o) new s 0 := by
  have h : ('\x7b' :: o).isPrefixOf (c :: s) = false := by
    simp [List.isPrefixOf, Ne.symm hc]
  simp [replaceScan, h]

theorem replaceScan_run (w o new s : List Char) (hw : ∀ c ∈ w, c ≠ '\x7b') :
    replaceScan ('\x7b' :: o) new (w ++ s) 0 = w ++ replaceScan ('\x7b' :: o) new s 0 := by
  induction w with
  | nil => rfl
  | cons c w ih =>
    have h1 : c ≠ '\x7b' := hw c (List.mem_cons_self _ _)
    have h2 : ∀ d ∈ w, d ≠ '\x7b' := fun d hd => hw d (List.mem_cons_of_mem _ hd)
    rw [List.cons_append, replaceScan_text c o new _ h1, ih h2, List.cons_append]

theorem replaceScan_brace (x : Char) (o new s : List Char) (hx : x ≠ '\x7b') :
    replaceScan ('\x7b' :: '\x7b' :: o) new ('\x7b' :: x :: s) 0 =
      '\x7b' :: replaceScan ('\x7b' :: '\x7b' :: o) new (x :: s) 0 := by
  have h : ('\x7b' :: '\x7b' :: o).isPrefixOf ('\x7b' :: x :: s) = false := by
    simp [List.isPrefixOf, Ne.symm hx]
  simp [replaceScan, h]

theorem token_not_prefix (t u : Token) (h : u ≠ t) (s : List Char) :
    t.chars.isPrefixOf (u.chars ++ s) = false := by
  cases t <;> cases u <;> first | exact absurd rfl h | simp [Token.chars, Token.name, List.isPrefixOf]

theorem token_body_plain (u : Token) :
    ∀ c ∈ u.name ++ ['\x7d', '\x7d'], c ≠ '\x7b' := by
  cases u <;> decide

theorem token_body_cons (u : Token) :
    ∃ x w, u.name ++ ['\x7d', '\x7d'] = x :: w := by
  cases u <;> exact ⟨_, _, rfl⟩

theorem replaceScan_other (t u : Token) (h : u ≠ t) (v s : List Char) :
    replaceScan t.chars v (u.chars ++ s) 0 = u.chars ++ replaceScan t.chars v s 0 := by
  have h0 := token_not_prefix t u h s
  have hp := token_body_plain u
  obtain ⟨x, w, hxw⟩ := token_body_cons u
  rw [hxw] at hp
  have hx : x ≠ '\x7b' := hp x (List.mem_cons_self _ _)
  have e1 : u.chars ++ s = '\x7b' :: '\x7b' :: x :: (w ++ s) := by
    simp [Token.chars, hxw]
  have e2 : u.chars = '\x7b' :: '\x7b' :: x :: w := by
    simp [Token.chars, hxw]
  rw [e1] at h0
  rw [e1, e2]
  have tc : t.chars = '\x7b' :: '\x7b' :: (t.name ++ ['\x7d', '\x7d']) := rfl
  rw [replaceScan]
  rw [h0]
  simp only [Bool.false_eq_true, if_false]
  rw [tc, replaceScan_brace x _ v _ hx]
  have := replaceScan_run (x :: w) ('\x7b' :: (t.name ++ ['\x7d', '\x7d'])) v s hp
  rw [List.cons_append] at this
  rw [this]
  rfl

theorem render_cons (p : Piece) (ps : List Piece) : render (p :: ps) = p.chars ++ render ps := by
  simp [render]

theorem replaceScan_render (t : Token) (v : List Char) (ps : List Piece)
    (h : ∀ p ∈ ps, p.plain) :
    replaceScan t.chars v (render ps) 0 =
      ps.flatMap (fun p => if p = Piece.token t then v else p.chars) := by
  induction ps with
  | nil => rfl
  | cons p ps ih =>
    have h2 : ∀ q ∈ ps, q.plain := fun q hq => h q (List.mem_cons_of_mem _ hq)
    have h1 : p.plain := h p (List.mem_cons_self _ _)
    rw [render_cons, List.flatMap_cons]
    cases p with
    | text c =>
      have tc : t.chars = '\x7b' :: ('\x7b' :: (t.name ++ ['\x7d', '\x7d'])) := rfl
      have hc : c ≠ '\x7b' := h1
      show replaceScan t.chars v (c :: render ps) 0 = _
      rw [tc, replaceScan_text c _ v _ hc, ← tc, ih h2]
      simp [Piece.chars]
    | token u =>
      by_cases hu : u = t
      · subst hu
        show replaceScan u.chars v (u.chars ++ render ps) 0 = _
        have tc : u.chars = '\x7b' :: ('\x7b' :: (u.name ++ ['\x7d', '\x7d'])) := rfl
        rw [tc, replaceScan_match, ← tc, ih h2]
        simp
      · show replaceScan t.chars v (u.chars ++ render ps) 0 = _
        rw [replaceScan_other t u hu, ih h2]
        have : Piece.token u ≠ Piece.token t := fun e => hu (Piece.token.inj e)
        simp [this, Piece.chars]

theorem token_chars_ne_nil (t : Token) : t.chars ≠ [] := by
  simp [Token.chars]

theorem ReplaceAll_render (t : Token) (v : String) (ps : List Piece)
    (h : ∀ p ∈ ps, p.plain) :
    ReplaceAll ⟨render ps⟩ t.text v =
      ⟨ps.flatMap (fun p => if p = Piece.token t then v.data else p.chars)⟩ := by
  unfold ReplaceAll
  by_cases hv : t.text = v
  · rw [if_pos hv]
    congr 1
    subst hv
    show ps.flatMap Piece.chars = _
    congr 1
    funext p
    by_cases hp : p = Piece.token t
    · rw [if_pos hp, hp]
      rfl
    · rw [if_neg hp]
  · rw [if_neg hv]
    have hne : t.text.data ≠ [] := token_chars_ne_nil t
    rw [if_neg hne]
    congr 1
    exact replaceScan_render t v.data ps h

theorem render_substPieces (t : Token) (vp ps : List Piece) :
    render (substPieces t vp ps) =
      ps.flatMap (fun p => if p = Piece.token t then render vp else p.chars) := by
  unfold render substPieces
  rw [List.flatMap_assoc]
  congr 1
  funext p
  by_cases hp : p = Piece.token t
  · simp [hp]
  · simp [hp]

theorem substPieces_absent (t : Token) (vp qs : List Piece)
    (h : ∀ p ∈ qs, p ≠ Piece.token t) : substPieces t vp qs = qs := by
  induction qs with
  | nil => rfl
  | cons q qs ih =>
    have h1 : q ≠ Piece.token t := h q (List.mem_cons_self _ _)
    have h2 : ∀ p ∈ qs, p ≠ Piece.token t := fun p hp => h p (List.mem_cons_of_mem _ hp)
    have := ih h2
    unfold substPieces at this ⊢
    rw [List.flatMap_cons, if_neg h1, this]
    rfl

theorem token_index_inj (t u : Token) (h : t.index = u.index) : t = u := by
  cases t <;> cases u <;> first | rfl | cases h

theorem inert_plain (t : Token) (p : Piece) (h : p.inert t) : p.plain := by
  cases p with
  | text c => exact h
  | token u => trivial

theorem inert_ne_later (t u : Token) (p : Piece) (h : p.inert t) (hlt : t.index < u.index) :
    p ≠ Piece.token u := by
  intro e
  subst e
  have : u.index ≤ t.index := h
  omega

theorem substPieces_fillBelow (val : Token → List Piece) (t0 : Token)
    (hval : ∀ t, ∀ p ∈ val t, p.inert t) (ps : List Piece) :
    substPieces t0 (val t0) (ps.flatMap (fillBelow val t0.index)) =
      ps.flatMap (fillBelow val (t0.index + 1)) := by
  unfold substPieces
  rw [List.flatMap_assoc]
  congr 1
  funext p
  cases p with
  | text c => simp [fillBelow]
  | token t =>
    show substPieces t0 (val t0) (fillBelow val t0.index (Piece.token t)) = _
    rcases Nat.lt_trichotomy t.index t0.index with hlt | heq | hgt
    · have e1 : fillBelow val t0.index (Piece.token t) = val t := by
        simp [fillBelow, hlt]
      have e2 : fillBelow val (t0.index + 1) (Piece.token t) = val t := by
        simp [fillBelow, Nat.lt_succ_of_lt hlt]
      rw [e1, e2]
      exact substPieces_absent t0 _ _ (fun p hp => inert_ne_later t t0 p (hval t p hp) hlt)
    · have e : t = t0 := token_index_inj t t0 heq
      subst e
      simp [fillBelow, substPieces]
    · have e1 : fillBelow val t0.index (Piece.token t) = [Piece.token t] := by
        simp [fillBelow, Nat.lt_asymm hgt]
      have e2 : fillBelow val (t0.index + 1) (Piece.token t) = [Piece.token t] := by
        have : ¬ t.index < t0.index + 1 := by omega
        simp [fillBelow, this]
      have hne : Piece.token t ≠ Piece.token t0 := by
        intro e
        have := Piece.token.inj e
        subst this
        omega
      rw [e1, e2]
      simp [substPieces, hne]

theorem fillBelow_plain (val : Token → List Piece) (k : Nat)
    (hval : ∀ t, ∀ p ∈ val t, p.inert t) (ps : List Piece) (hps : ∀ p ∈ ps, p.plain) :
    ∀ q ∈ ps.flatMap (fillBelow val k), q.plain := by
  intro q hq
  rw [List.mem_flatMap] at hq
  obtain ⟨p, hp, hqp⟩ := hq
  cases p with
  | text c =>
    simp only [fillBelow, List.mem_singleton] at hqp
    subst hqp
    exact hps _ hp
  | token t =>
    simp only [fillBelow] at hqp
    split at hqp
    · exact inert_plain t q (hval t q hqp)
    · rw [List.mem_singleton] at hqp
      subst hqp
      trivial

/-- One call of `ReplaceAll` in the chain of `FormatAddress`. -/
theorem replaceAll_step (val : Token → List Piece) (t0 : Token)
    (hval : ∀ t, ∀ p ∈ val t, p.inert t) (ps : List Piece) (hps : ∀ p ∈ ps, p.plain) :
    ReplaceAll ⟨render (ps.flatMap (fillBelow val t0.index))⟩ t0.text ⟨render (val t0)⟩ =
      ⟨render (ps.flatMap (fillBelow val (t0.index + 1)))⟩ := by
  rw [ReplaceAll_render t0 _ _ (fillBelow_plain val _ hval ps hps)]
  rw [← substPieces_fillBelow val t0 hval ps, render_substPieces]

theorem fillBelow_zero (val : Token → List Piece) (ps : List Piece) :
    ps.flatMap (fillBelow val 0) = ps := by
  induction ps with
  | nil => rfl
  | cons p ps ih =>
    rw [List.flatMap_cons, ih]
    cases p <;> simp [fillBelow]

theorem flatMap_absent (t : Token) (v : List Char) (qs : List Piece)
    (h : ∀ p ∈ qs, p ≠ Piece.token t) :
    qs.flatMap (fun p => if p = Piece.token t then v else p.chars) = render qs := by
  induction qs with
  | nil => rfl
  | cons q qs ih =>
    have h1 : q ≠ Piece.token t := h q (List.mem_cons_self _ _)
    have h2 : ∀ p ∈ qs, p ≠ Piece.token t := fun p hp => h p (List.mem_cons_of_mem _ hp)
    rw [List.flatMap_cons, if_neg h1, ih h2, render_cons]

theorem filled_last (val : Token → List Piece) (country : String)
    (hval : ∀ t, ∀ p ∈ val t, p.inert t) (ps : List Piece) :
    (ps.flatMap (fillBelow val 6)).flatMap
        (fun p => if p = Piece.token Token.country then country.data else p.chars) =
      ps.flatMap (Piece.filled
        (fun t => if t = Token.country then country.data else render (val t))) := by
  rw [List.flatMap_assoc]
  congr 1
  funext p
  cases p with
  | text c => simp [fillBelow, Piece.filled, Piece.chars]
  | token t =>
    by_cases ht : t = Token.country
    · subst ht
      simp [fillBelow, Piece.filled, Token.index]
    · have hlt : t.index < 6 := by
        cases t <;> first | exact absurd rfl ht | simp [Token.index]
      have e1 : fillBelow val 6 (Piece.token t) = val t := by
        simp [fillBelow, hlt]
      rw [e1]
      show _ = if t = Token.country then country.data else render (val t)
      rw [if_neg ht]
      exact flatMap_absent Token.country _ _ (fun q hq =>
        inert_ne_later t Token.country q (hval t q hq) hlt)

/-- The seven calls of `ReplaceAll` on a template of plain pieces, with values
made of inert pieces: every token is replaced by its value, and the values
are left as they are. -/
theorem substituteTokens_pieces (ps : List Piece) (val : Token → List Piece) (country : String)
    (hps : ∀ p ∈ ps, p.plain) (hval : ∀ t, ∀ p ∈ val t, p.inert t) :
    substituteTokens ⟨render ps⟩ ⟨render (val .recipient)⟩ ⟨render (val .street)⟩
        ⟨render (val .postalcode)⟩ ⟨render (val .city)⟩ ⟨render (val .region)⟩
        ⟨render (val .region_short)⟩ country =
      ⟨ps.flatMap (Piece.filled
        (fun t => if t = Token.country then country.data else render (val t)))⟩ := by
  have s0 := replaceAll_step val Token.recipient hval ps hps
  have s1 := replaceAll_step val Token.street hval ps hps
  have s2 := replaceAll_step val Token.postalcode hval ps hps
  have s3 := replaceAll_step val Token.city hval ps hps
  have s4 := replaceAll_step val Token.region hval ps hps
  have s5 := replaceAll_step val Token.region_short hval ps hps
  have z : ps.flatMap (fillBelow val Token.recipient.index) = ps := fillBelow_zero val ps
  rw [z] at s0
  show ReplaceAll (ReplaceAll (ReplaceAll (ReplaceAll (ReplaceAll (ReplaceAll (ReplaceAll
    ⟨render ps⟩ Token.recipient.text ⟨render (val .recipient)⟩)
    Token.street.text ⟨render (val .street)⟩)
    Token.postalcode.text ⟨render (val .postalcode)⟩)
    Token.city.text ⟨render (val .city)⟩)
    Token.region.text ⟨render (val .region)⟩)
    Token.region_short.text ⟨render (val .region_short)⟩)
    Token.country.text country = _
  rw [s0]
  rw [show ps.flatMap (fillBelow val (Token.recipient.index + 1)) =
    ps.flatMap (fillBelow val Token.street.index) from rfl, s1]
  rw [show ps.flatMap (fillBelow val (Token.street.index + 1)) =
    ps.flatMap (fillBelow val Token.postalcode.index) from rfl, s2]
  rw [show ps.flatMap (fillBelow val (Token.postalcode.index + 1)) =
    ps.flatMap (fillBelow val Token.city.index) from rfl, s3]
  rw [show ps.flatMap (fillBelow val (Token.city.index + 1)) =
    ps.flatMap (fillBelow val Token.region.index) from rfl, s4]
  rw [show ps.flatMap (fillBelow val (Token.region.index + 1)) =
    ps.flatMap (fillBelow val Token.region_short.index) from rfl, s5]
  rw [ReplaceAll_render Token.country country _ (fillBelow_plain val _ hval ps hps)]
  congr 1
  exact filled_last val country hval ps

/-- The single pass of the specification drops the rest of a replaced token. -/
theorem replaceTokensOnce_skip (val : Token → List Char) (p s : List Char) :
    replaceTokensOnce val (p ++ s) p.length = replaceTokensOnce val s 0 := by
  induction p with
  | nil => rfl
  | cons c p ih => simpa [replaceTokensOnce] using ih

theorem find_token_text (c : Char) (s : List Char) (hc : c ≠ '\x7b') :
    Token.all.find? (fun t => t.chars.isPrefixOf (c :: s)) = none := by
  have hc2 : ('\x7b' == c) = false := by simp [Ne.symm hc]
  simp [Token.all, Token.chars, List.isPrefixOf, hc2]

theorem find_token_token (u : Token) (s : List Char) :
    Token.all.find? (fun t => t.chars.isPrefixOf (u.chars ++ s)) = some u := by
  cases u <;> simp [Token.all, Token.chars, Token.name, List.isPrefixOf, List.find?]

/-- On a template of plain pieces the single pass of the specification fills
every piece. -/
theorem replaceTokensOnce_render (val : Token → List Char) (ps : List Piece)
    (hps : ∀ p ∈ ps, p.plain) :
    replaceTokensOnce val (render ps) 0 = ps.flatMap (Piece.filled val) := by
  induction ps with
  | nil => rfl
  | cons p ps ih =>
    have h2 : ∀ q ∈ ps, q.plain := fun q hq => hps q (List.mem_cons_of_mem _ hq)
    have h1 : p.plain := hps p (List.mem_cons_self _ _)
    rw [render_cons, List.flatMap_cons]
    cases p with
    | text c =>
      have hc : c ≠ '\x7b' := h1
      show replaceTokensOnce val (c :: render ps) 0 = _
      rw [replaceTokensOnce, find_token_text c _ hc]
      show c :: replaceTokensOnce val (render ps) 0 = _
      rw [ih h2]
      rfl
    | token u =>
      have e : u.chars ++ render ps =
          '\x7b' :: (('\x7b' :: (u.name ++ ['\x7d', '\x7d'])) ++ render ps) := rfl
      have hf := find_token_token u (render ps)
      rw [e] at hf
      show replaceTokensOnce val (u.chars ++ render ps) 0 = _
      rw [e, replaceTokensOnce, hf]
      show val u ++ replaceTokensOnce val (('\x7b' :: (u.name ++ ['\x7d', '\x7d'])) ++ render ps)
        (('\x7b' :: (u.name ++ ['\x7d', '\x7d'])).length) = _
      rw [replaceTokensOnce_skip, ih h2]
      rfl

/-- `FormatAddress` on a template of plain pieces, the values made of inert
pieces: every token is replaced by its value, and the values are left as they
are. -/
theorem formatAddress_pieces (c : Country) (recipient street postalCode city region : String)
    (ps : List Piece) (val : Token → List Piece)
    (htpl : c.AddressFormat = ⟨render ps⟩) (hps : ∀ p ∈ ps, p.plain)
    (hval : ∀ t, ∀ p ∈ val t, p.inert t)
    (hvals : ∀ t, t ≠ Token.country →
      addressValues c recipient street postalCode city region t = render (val t)) :
    c.FormatAddress recipient street postalCode city region =
      ⟨ps.flatMap (Piece.filled (addressValues c recipient street postalCode city region))⟩ := by
  have e0 : recipient = ⟨render (val .recipient)⟩ :=
    congrArg String.mk (hvals .recipient (by decide))
  have e1 : street = ⟨render (val .street)⟩ :=
    congrArg String.mk (hvals .street (by decide))
  have e2 : postalCode = ⟨render (val .postalcode)⟩ :=
    congrArg String.mk (hvals .postalcode (by decide))
  have e3 : city = ⟨render (val .city)⟩ :=
    congrArg String.mk (hvals .city (by decide))
  have e4 : c.regionName region = ⟨render (val .region)⟩ :=
    congrArg String.mk (hvals .region (by decide))
  have e5 : c.regionShortName region = ⟨render (val .region_short)⟩ :=
    congrArg String.mk (hvals .region_short (by decide))
  have hfun : (fun t => if t = Token.country then c.ISOShortName.data else render (val t)) =
      addressValues c recipient street postalCode city region := by
    funext t
    by_cases ht : t = Token.country
    · subst ht
      rfl
    · rw [if_neg ht, hvals t ht]
  rw [formatAddress_eq, htpl, e4, e5]
  conv_lhs => rw [e0, e1, e2, e3]
  rw [substituteTokens_pieces ps val c.ISOShortName hps hval, hfun]

theorem render_text (l : List Char) : render (l.map Piece.text) = l := by
  induction l with
  | nil => rfl
  | cons c l ih => rw [List.map_cons, render_cons, ih]; rfl

theorem text_inert (t : Token) (l : List Char) (h : '\x7b' ∉ l) :
    ∀ p ∈ l.map Piece.text, p.inert t := by
  intro p hp
  rw [List.mem_map] at hp
  obtain ⟨ch, hch, rfl⟩ := hp
  show ch ≠ '\x7b'
  intro e
  exact h (e ▸ hch)

/-- C4 (amended): with the four-line template, the short name "United States"
and no subdivisions, the address of Jane Doe is rendered exactly as the four
lines.  In general, for a template whose opening braces all belong to tokens
and values without an opening brace (recipient, street, postal code, city and
the two resolved region names), the result is the template with every token
replaced by its value and every other character unchanged; this is also what
the single simultaneous pass of the specification yields. -/
theorem C4_formatAddress_tokens :
    (∀ c : Country,
      c.AddressFormat = "\x7b\x7brecipient\x7d\x7d\n\x7b\x7bstreet\x7d\x7d\n\x7b\x7bpostalcode\x7d\x7d \x7b\x7bcity\x7d\x7d\n\x7b\x7bcountry\x7d\x7d" →
      c.ISOShortName = "United States" → c.Subdivisions = [] →
      c.FormatAddress "Jane Doe" "1 Main St" "10001" "New York" "" =
        "Jane Doe\n1 Main St\n10001 New York\nUnited States") ∧
    (∀ (c : Country) (recipient street postalCode city region : String) (ps : List Piece),
      c.AddressFormat = ⟨render ps⟩ → (∀ p ∈ ps, p.plain) →
      '\x7b' ∉ recipient.data → '\x7b' ∉ street.data → '\x7b' ∉ postalCode.data →
      '\x7b' ∉ city.data → '\x7b' ∉ (c.regionName region).data →
      '\x7b' ∉ (c.regionShortName region).data →
      c.FormatAddress recipient street postalCode city region =
        ⟨ps.flatMap (Piece.filled
          (addressValues c recipient street postalCode city region))⟩ ∧
      c.FormatAddress recipient street postalCode city region =
        ⟨replaceTokensOnce (addressValues c recipient street postalCode city region)
          c.AddressFormat.data 0⟩) := by
  constructor
  · intro c h1 h2 h3
    rw [formatAddress_eq]
    simp only [Country.regionName, Country.regionShortName, Country.Subdivision,
      Country.SubdivisionByName, h1, h2, h3]
    decide
  · intro c recipient street postalCode city region ps htpl hps h0 h1 h2 h3 h4 h5
    have key : c.FormatAddress recipient street postalCode city region =
        ⟨ps.flatMap (Piece.filled
          (addressValues c recipient street postalCode city region))⟩ := by
      apply formatAddress_pieces c recipient street postalCode city region ps
        (fun t => if t = Token.country then []
          else (addressValues c recipient street postalCode city region t).map Piece.text)
        htpl hps
      · intro t
        cases t
        · exact text_inert _ _ h0
        · exact text_inert _ _ h1
        · exact text_inert _ _ h2
        · exact text_inert _ _ h3
        · exact text_inert _ _ h4
        · exact text_inert _ _ h5
        · intro p hp
          cases hp
      · intro t ht
        rw [if_neg ht, render_text]
    refine ⟨key, ?_⟩
    rw [key, htpl, replaceTokensOnce_render _ ps hps]

/-- C4 as stated fails: every token occurs in the template, no value contains
two opening braces in a row, and the result differs from the template with
every token occurrence replaced: the recipient "\x7b" joins the text behind
its token into a street token, which the next call replaces. -/
theorem C4_counterexample :
    (∀ t ∈ Token.all, t.chars <:+: c4Country.AddressFormat.data) ∧
    (∀ v ∈ ["\x7b", "X", "P", "C", "R"], ¬ ("\x7b\x7b".data <:+: String.data v)) ∧
    c4Country.FormatAddress "\x7b" "X" "P" "C" "R" = "X X P C R R N" ∧
    (⟨replaceTokensOnce (addressValues c4Country "\x7b" "X" "P" "C" "R")
        c4Country.AddressFormat.data 0⟩ : String) =
      "\x7b\x7bstreet\x7d\x7d X P C R R N" := by
  decide

/-- C4, at concrete inputs. -/
theorem C4_formatAddress_tokens_witness :
    usCountry.FormatAddress "Jane Doe" "1 Main St" "10001" "New York" "" =
        "Jane Doe\n1 Main St\n10001 New York\nUnited States" ∧
    usCountry.FormatAddress "Ann" "2 Elm Rd" "94105" "Reno" "NV" =
        ⟨usPieces.flatMap (Piece.filled
          (addressValues usCountry "Ann" "2 Elm Rd" "94105" "Reno" "NV"))⟩ ∧
    usCountry.FormatAddress "Ann" "2 Elm Rd" "94105" "Reno" "NV" =
        "Ann\n2 Elm Rd\n94105 Reno\nUnited States" :=
  ⟨C4_formatAddress_tokens.1 usCountry rfl rfl rfl,
   (C4_formatAddress_tokens.2 usCountry "Ann" "2 Elm Rd" "94105" "Reno" "NV" usPieces
      (by decide) (by decide) (by decide) (by decide) (by decide) (by decide) (by decide)
      (by decide)).1,
   by decide⟩

/-- C5 as stated fails on its own example: with the template of the recipient
token alone, the recipient being the street token and the street "X", the
result is "X"; the token inside the value is substituted by the next call. -/
theorem C5_counterexample :
    c5Country.FormatAddress "\x7b\x7bstreet\x7d\x7d" "X" "" "" "" = "X" ∧
    c5Country.FormatAddress "\x7b\x7bstreet\x7d\x7d" "X" "" "" "" ≠
      "\x7b\x7bstreet\x7d\x7d" := by
  decide

/-- C5 (amended): a token sequence inside a value is not substituted again
when its token is the token of that value or one substituted before it, in
the order recipient, street, postalcode, city, region, region_short, country.
For a template whose opening braces all belong to tokens, and values whose
opening braces all belong to such token sequences, every token of the
template is replaced by its value and each value appears verbatim. -/
theorem C5_earlier_tokens_verbatim (c : Country)
    (recipient street postalCode city region : String)
    (ps : List Piece) (val : Token → List Piece)
    (htpl : c.AddressFormat = ⟨render ps⟩) (hps : ∀ p ∈ ps, p.plain)
    (hval : ∀ t, ∀ p ∈ val t, p.inert t)
    (hvals : ∀ t, t ≠ Token.country →
      addressValues c recipient street postalCode city region t = render (val t)) :
    c.FormatAddress recipient street postalCode city region =
      ⟨ps.flatMap (Piece.filled (addressValues c recipient street postalCode city region))⟩ :=
  formatAddress_pieces c recipient street postalCode city region ps val htpl hps hval hvals

/-- C5, at a concrete input: the street value holds the recipient token and
the street token, and both are left as they are. -/
theorem C5_earlier_tokens_verbatim_witness :
    c5Street.FormatAddress "X" "\x7b\x7brecipient\x7d\x7d+\x7b\x7bstreet\x7d\x7d" "" "" "" =
      ⟨[Piece.text '[', Piece.token Token.street, Piece.text ']'].flatMap (Piece.filled
        (addressValues c5Street "X" "\x7b\x7brecipient\x7d\x7d+\x7b\x7bstreet\x7d\x7d"
          "" "" ""))⟩ ∧
    c5Street.FormatAddress "X" "\x7b\x7brecipient\x7d\x7d+\x7b\x7bstreet\x7d\x7d" "" "" "" =
      "[\x7b\x7brecipient\x7d\x7d+\x7b\x7bstreet\x7d\x7d]" :=
  ⟨C5_earlier_tokens_verbatim c5Street "X"
      "\x7b\x7brecipient\x7d\x7d+\x7b\x7bstreet\x7d\x7d" "" "" ""
      [Piece.text '[', Piece.token Token.street, Piece.text ']'] c5Values
      (by decide) (by decide)
      (by intro t; cases t <;> decide)
      (by intro t ht; cases t <;> rfl),
   by decide⟩

/-! ### Postal codes -/

theorem iterate_bounds (f : Nat → List Nat) (len i : Nat)
    (hf : ∀ y x, x ∈ f y → y ≤ x ∧ (y ≤ len → x ≤ len)) :
    ∀ (n : Nat) (js : List Nat), (∀ y ∈ js, i ≤ y ∧ (i ≤ len → y ≤ len)) →
      ∀ x ∈ Nat.iterate (fun l : List Nat => l.flatMap f) n js, i ≤ x ∧ (i ≤ len → x ≤ len) := by
  intro n
  induction n with
  | zero =>
    intro js hjs x hx
    exact hjs x hx
  | succ n ih =>
    intro js hjs x hx
    rw [Function.iterate_succ_apply] at hx
    refine ih (js.flatMap f) ?_ x hx
    intro y hy
    rw [List.mem_flatMap] at hy
    obtain ⟨z, hz, hyz⟩ := hy
    have h1 := hjs z hz
    have h2 := hf z y hyz
    exact ⟨Nat.le_trans h1.1 h2.1, fun h => h2.2 (h1.2 h)⟩

theorem Re.ends_bounds (s : List Char) (r : Re) :
    ∀ i j, j ∈ Re.ends s r i → i ≤ j ∧ (i ≤ s.length → j ≤ s.length) := by
  induction r with
  | empty =>
    intro i j h
    simp only [Re.ends, List.mem_singleton] at h
    subst h
    exact ⟨Nat.le_refl _, fun h => h⟩
  | char c =>
    intro i j h
    simp only [Re.ends] at h
    split at h
    · rename_i hc
      rw [List.mem_singleton] at h
      subst h
      have hlt : i < s.length := by
        rw [List.get?_eq_some] at hc
        exact hc.1
      exact ⟨Nat.le_succ _, fun _ => hlt⟩
    · cases h
  | digit =>
    intro i j h
    simp only [Re.ends] at h
    split at h
    · rename_i d hd
      split at h
      · rw [List.mem_singleton] at h
        subst h
        have hlt : i < s.length := by
          rw [List.get?_eq_some] at hd
          exact hd.1
        exact ⟨Nat.le_succ _, fun _ => hlt⟩
      · cases h
    · cases h
  | bot =>
    intro i j h
    simp only [Re.ends] at h
    split at h
    · rw [List.mem_singleton] at h
      subst h
      exact ⟨Nat.le_refl _, fun h => h⟩
    · cases h
  | eot =>
    intro i j h
    simp only [Re.ends] at h
    split at h
    · rw [List.mem_singleton] at h
      subst h
      exact ⟨Nat.le_refl _, fun h => h⟩
    · cases h
  | seq a b iha ihb =>
    intro i j h
    simp only [Re.ends, List.mem_flatMap] at h
    obtain ⟨m, hm, hj⟩ := h
    have h1 := iha i m hm
    have h2 := ihb m j hj
    exact ⟨Nat.le_trans h1.1 h2.1, fun h => h2.2 (h1.2 h)⟩
  | alt a b iha ihb =>
    intro i j h
    simp only [Re.ends, List.mem_append] at h
    rcases h with h | h
    · exact iha i j h
    · exact ihb i j h
  | rep a lo hi iha =>
    intro i j h
    simp only [Re.ends, List.mem_flatMap] at h
    obtain ⟨k, _, hj⟩ := h
    refine iterate_bounds (Re.ends s a) s.length i iha (lo + k) [i] ?_ j hj
    intro y hy
    rw [List.mem_singleton] at hy
    subst hy
    exact ⟨Nat.le_refl _, fun h => h⟩

theorem re2Fragment_lawful : re2Fragment.Lawful := by
  intro r s
  show Re.Match r s = true ↔ ∃ i j, i ≤ j ∧ j ≤ s.length ∧ j ∈ Re.ends s r i
  unfold Re.Match
  rw [List.any_eq_true]
  constructor
  · rintro ⟨i, hi, hne⟩
    rw [List.mem_range] at hi
    cases hl : Re.ends s r i with
    | nil => simp [hl] at hne
    | cons j rest =>
      have hj : j ∈ Re.ends s r i := by
        rw [hl]
        exact List.mem_cons_self _ _
      have hb := Re.ends_bounds s r i j hj
      exact ⟨i, j, hb.1, hb.2 (Nat.le_of_lt_succ hi), hj⟩
  · rintro ⟨i, j, hij, hj, hmem⟩
    refine ⟨i, ?_, ?_⟩
    · rw [List.mem_range]
      omega
    · cases hl : Re.ends s r i with
      | nil =>
        rw [hl] at hmem
        cases hmem
      | cons x rest => rfl

/-- C6: a country with an empty postal-code format has no postal code, and
`MatchPostalCode` returns false for every candidate whatever the regular
expression engine does, so without compiling anything and without a panic;
and `HasPostalCode` is true exactly when the format is non-empty. -/
theorem C6_no_postal_code :
    (∀ (E : RegexpEngine) (c : Country) (candidate : String), c.PostalCodeFormat = "" →
      c.HasPostalCode = false ∧ c.MatchPostalCode E candidate = some false) ∧
    (∀ c : Country, c.HasPostalCode = true ↔ c.PostalCodeFormat ≠ "") := by
  constructor
  · intro E c candidate h
    have h1 : c.HasPostalCode = false := by
      simp [Country.HasPostalCode, h]
    refine ⟨h1, ?_⟩
    simp [Country.MatchPostalCode, h1]
  · intro c
    simp [Country.HasPostalCode]

/-- C6, at a concrete input: a country without format, on an engine whose
`Compile` rejects every pattern. -/
theorem C6_no_postal_code_witness :
    (GoZero.zero : Country).HasPostalCode = false ∧
    (GoZero.zero : Country).MatchPostalCode failingEngine "90210" = some false ∧
    (usZip.HasPostalCode = true ↔ usZip.PostalCodeFormat ≠ "") ∧
    usZip.HasPostalCode = true :=
  ⟨(C6_no_postal_code.1 failingEngine GoZero.zero "90210" rfl).1,
   (C6_no_postal_code.1 failingEngine GoZero.zero "90210" rfl).2,
   C6_no_postal_code.2 usZip,
   by decide⟩

/-- C7: with the format of five digits and an optional group of a hyphen and
four digits between `^` and `$`, the candidates "90210" and "90210-1234"
match and "ABCDE" does not.  In general, for a non-empty format that
compiles, `MatchPostalCode` returns what the search `Match` of the engine
returns on the candidate, so it is true exactly when some span of the
candidate is matched by the pattern: the code adds no anchoring. -/
theorem C7_matchPostalCode :
    (∀ c : Country, c.PostalCodeFormat = "^\\d\x7b5\x7d(-\\d\x7b4\x7d)?$" →
      c.MatchPostalCode re2Fragment "90210" = some true ∧
      c.MatchPostalCode re2Fragment "90210-1234" = some true ∧
      c.MatchPostalCode re2Fragment "ABCDE" = some false) ∧
    (∀ (E : RegexpEngine) (c : Country) (candidate : String) (r : E.Regexp),
      E.Lawful → c.PostalCodeFormat ≠ "" → E.Compile c.PostalCodeFormat = some r →
      c.MatchPostalCode E candidate = some (E.Match r candidate.data) ∧
      (c.MatchPostalCode E candidate = some true ↔
        ∃ i j, i ≤ j ∧ j ≤ candidate.data.length ∧ E.MatchesSpan r candidate.data i j)) := by
  constructor
  · intro c h
    simp only [Country.MatchPostalCode, Country.HasPostalCode, h]
    decide
  · intro E c candidate r hE hne hr
    have h1 : c.HasPostalCode = true := by
      simp [Country.HasPostalCode, hne]
    have h2 : c.MatchPostalCode E candidate = some (E.Match r candidate.data) := by
      simp [Country.MatchPostalCode, h1, hr]
    refine ⟨h2, ?_⟩
    rw [h2, ← hE r candidate.data]
    simp

/-- C7, at concrete inputs: the examples of the claim, and an unanchored
pattern of five digits that matches inside a longer candidate. -/
theorem C7_matchPostalCode_witness :
    (usZip.MatchPostalCode re2Fragment "90210" = some true ∧
      usZip.MatchPostalCode re2Fragment "90210-1234" = some true ∧
      usZip.MatchPostalCode re2Fragment "ABCDE" = some false) ∧
    (fiveDigits.MatchPostalCode re2Fragment "AB90210CD" = some true ↔
      ∃ i j, i ≤ j ∧ j ≤ "AB90210CD".data.length ∧
        re2Fragment.MatchesSpan (Re.seq (Re.rep Re.digit 5 (some 5)) Re.empty)
          "AB90210CD".data i j) ∧
    fiveDigits.MatchPostalCode re2Fragment "AB90210CD" = some true :=
  ⟨C7_matchPostalCode.1 usZip rfl,
   (C7_matchPostalCode.2 re2Fragment fiveDigits "AB90210CD"
      (Re.seq (Re.rep Re.digit 5 (some 5)) Re.empty)
      re2Fragment_lawful (by decide) rfl).2,
   by decide⟩

/-! ### The flag of a country -/

theorem foldl_append_singleton {α β : Type} (f : α → β) (l : List α) (acc : List β) :
    l.foldl (fun flag r => flag ++ [f r]) acc = acc ++ l.map f := by
  induction l generalizing acc with
  | nil => simp
  | cons a l ih => simp [ih]

theorem emojiFlag_data (uni : Char → Char) (c : Country) :
    (c.EmojiFlag uni).data =
      c.Alpha2.data.map (fun r => GoMap.get flagsCodePoints (toLowerRune uni r)) := by
  simp [Country.EmojiFlag, ToLower, foldl_append_singleton]

theorem flag_of_lower (n : Nat) (h1 : 97 ≤ n) (h2 : n ≤ 122) :
    (Char.ofNat n, GoMap.get flagsCodePoints (Char.ofNat n)) ∈ flagsSlice := by
  interval_cases n <;> decide

theorem toLowerRune_letter (uni : Char → Char) (r : Char) (h : isASCIILetter r) :
    ∃ n, 97 ≤ n ∧ n ≤ 122 ∧ toLowerRune uni r = Char.ofNat n := by
  rcases h with ⟨h1, h2⟩ | ⟨h1, h2⟩
  · refine ⟨r.toNat + 32, by omega, by omega, ?_⟩
    have hlt : r.toNat < 128 := by omega
    simp [toLowerRune, hlt, h1, h2]
  · refine ⟨r.toNat, h1, h2, ?_⟩
    have hlt : r.toNat < 128 := by omega
    have hnot : ¬ (65 ≤ r.toNat ∧ r.toNat ≤ 90) := by omega
    simp only [toLowerRune, hlt, hnot, if_true, if_false]
    exact (Char.ofNat_toNat r).symm

/-- C8: for a code made of ASCII letters the flag has one code point per
letter, the code point at each position being the entry of the flag table for
the lower-case form of the letter at that position; the code "FR" yields the
entries of "f" and "r", two code points, and "fr" yields the same flag. -/
theorem C8_emojiFlag_letters :
    (∀ (uni : Char → Char) (c : Country), (∀ r ∈ c.Alpha2.data, isASCIILetter r) →
      (c.EmojiFlag uni).data.length = c.Alpha2.data.length ∧
      ∀ (i : Nat) (r : Char), c.Alpha2.data[i]? = some r →
        ∃ f, (c.EmojiFlag uni).data[i]? = some f ∧ (toLowerRune uni r, f) ∈ flagsSlice) ∧
    (∀ (uni : Char → Char) (c : Country), c.Alpha2 = "FR" →
      c.EmojiFlag uni = ⟨[Char.ofNat 0x1F1EB, Char.ofNat 0x1F1F7]⟩ ∧
      ('f', Char.ofNat 0x1F1EB) ∈ flagsSlice ∧ ('r', Char.ofNat 0x1F1F7) ∈ flagsSlice ∧
      (c.EmojiFlag uni).data.length = 2) ∧
    (∀ (uni : Char → Char) (c d : Country), c.Alpha2 = "FR" → d.Alpha2 = "fr" →
      d.EmojiFlag uni = c.EmojiFlag uni) := by
  refine ⟨?_, ?_, ?_⟩
  · intro uni c hc
    rw [emojiFlag_data]
    refine ⟨List.length_map _ _, ?_⟩
    intro i r hr
    refine ⟨GoMap.get flagsCodePoints (toLowerRune uni r), ?_, ?_⟩
    · rw [List.getElem?_map, hr]
      rfl
    · have hmem : r ∈ c.Alpha2.data := List.getElem?_mem hr
      obtain ⟨n, h1, h2, hn⟩ := toLowerRune_letter uni r (hc r hmem)
      rw [hn]
      exact flag_of_lower n h1 h2
  · intro uni c hc
    have e : c.EmojiFlag uni = ⟨[Char.ofNat 0x1F1EB, Char.ofNat 0x1F1F7]⟩ := by
      have := emojiFlag_data uni c
      rw [hc] at this
      exact congrArg String.mk this
    refine ⟨e, by decide, by decide, ?_⟩
    rw [e]
    rfl
  · intro uni c d hc hd
    have e1 := emojiFlag_data uni c
    have e2 := emojiFlag_data uni d
    rw [hc] at e1
    rw [hd] at e2
    exact congrArg String.mk (e2.trans e1.symm)

/-- C8, at the code "FR". -/
theorem C8_emojiFlag_letters_witness :
    (frCountry.EmojiFlag id).data.length = frCountry.Alpha2.data.length ∧
    (∃ f, (frCountry.EmojiFlag id).data[1]? = some f ∧ (toLowerRune id 'R', f) ∈ flagsSlice) ∧
    frCountry.EmojiFlag id = ⟨[Char.ofNat 0x1F1EB, Char.ofNat 0x1F1F7]⟩ :=
  ⟨(C8_emojiFlag_letters.1 id frCountry (by decide)).1,
   (C8_emojiFlag_letters.1 id frCountry (by decide)).2 1 'R' (by decide),
   (C8_emojiFlag_letters.2.1 id frCountry rfl).1⟩

/-! ### Aggregation -/

theorem GoMap.find_set {κ ν : Type} [DecidableEq κ] (m : GoMap κ ν) (k k2 : κ) (v : ν) :
    GoMap.find (GoMap.set m k v) k2 = if k = k2 then some v else GoMap.find m k2 := by
  induction m with
  | nil => simp [GoMap.set, GoMap.find]
  | cons p m ih =>
    obtain ⟨k0, v0⟩ := p
    by_cases h0 : k0 = k
    · subst h0
      by_cases h2 : k0 = k2
      · simp [GoMap.set, GoMap.find, h2]
      · simp [GoMap.set, GoMap.find, h2]
    · by_cases h2 : k0 = k2
      · subst h2
        simp [GoMap.set, GoMap.find, h0, Ne.symm h0]
      · simp [GoMap.set, GoMap.find, h0, h2, ih]

theorem GoMap.find_foldl_set_absent {κ ν μ : Type} [DecidableEq κ] (g : ν → μ)
    (l : GoMap κ ν) (k : κ) (hk : k ∉ l.map Prod.fst) (m : GoMap κ μ) :
    GoMap.find (l.foldl (fun m entry => GoMap.set m entry.1 (g entry.2)) m) k =
      GoMap.find m k := by
  induction l generalizing m with
  | nil => rfl
  | cons p l ih =>
    have h1 : p.1 ≠ k := fun e => hk (by simp [e])
    have h2 : k ∉ l.map Prod.fst := fun e => hk (by simp [e])
    rw [List.foldl_cons, ih h2, GoMap.find_set, if_neg h1]

theorem GoMap.find_foldl_set {κ ν μ : Type} [DecidableEq κ] (g : ν → μ)
    (l : GoMap κ ν) (hl : GoMap.WF l) (k : κ) (v : ν) (hkv : (k, v) ∈ l) (m : GoMap κ μ) :
    GoMap.find (l.foldl (fun m entry => GoMap.set m entry.1 (g entry.2)) m) k = some (g v) := by
  induction l generalizing m with
  | nil => cases hkv
  | cons p l ih =>
    have hnd : p.1 ∉ l.map Prod.fst ∧ GoMap.WF l := List.nodup_cons.mp hl
    rw [List.foldl_cons]
    rcases List.mem_cons.mp hkv with h | h
    · subst h
      rw [GoMap.find_foldl_set_absent g l _ hnd.1, GoMap.find_set, if_pos rfl]
    · exact ih hnd.2 h _

theorem GoMap.get_of_find {κ ν : Type} [DecidableEq κ] [GoZero ν] (m : GoMap κ ν) (k : κ)
    (v : ν) (h : GoMap.find m k = some v) : GoMap.get m k = v := by
  unfold GoMap.get
  rw [h]

theorem mergeCountry_alpha2 (src : Sources) (k : String) (c : Country) :
    (mergeCountry src k c).Alpha2 = c.Alpha2 := rfl

theorem mergeCountry_capital (src : Sources) (k : String) (c : Country) :
    (mergeCountry src k c).Capital = GoMap.get src.allCapitals k := rfl

theorem loadCountryData_perm (src : Sources) :
    (loadCountryData src).All.Perm
      (src.allCountries.map (fun entry => mergeCountry src entry.1 entry.2)) :=
  List.perm_insertionSort _ _

theorem markCapital_capital (capital : String) (sd : Subdivision) :
    (markCapital capital sd).Capital = true ↔
      (sd.Capital = true ∨
        (sd.Type_ = "metropolitan_city" ∧ GoMap.get sd.Translations "en" = capital)) := by
  unfold markCapital
  by_cases h : sd.Type_ = "metropolitan_city" ∧ GoMap.get sd.Translations "en" = capital
  · rw [if_pos h]
    simp [h]
  · rw [if_neg h]
    simp [h]

theorem mergeCountry_subdivision (src : Sources) (k : String) (c : Country)
    (code : String) (sd : Subdivision)
    (hwf : GoMap.WF (GoMap.get src.allSubdivisions k))
    (hsd : (code, sd) ∈ GoMap.get src.allSubdivisions k) :
    GoMap.get (mergeCountry src k c).Subdivisions code =
      markCapital (GoMap.get src.allCapitals k) sd := by
  show GoMap.get ((GoMap.get src.allSubdivisions k).foldl
    (fun m entry => GoMap.set m entry.1 (markCapital (GoMap.get src.allCapitals k) entry.2))
    []) code = _
  exact GoMap.get_of_find _ _ _
    (GoMap.find_foldl_set (markCapital (GoMap.get src.allCapitals k)) _ hwf code sd hsd [])

/-- C9 as stated fails: the subdivision "62" of Italy has the type "region"
and the translation "Lazio", the capital is "Rome", and the merged flag is
true, because the source record carries it and the code never clears it. -/
theorem C9_counterexample :
    (loadCountryData c9Sources).All.map (fun c => c.Capital) = ["Rome"] ∧
    (loadCountryData c9Sources).All.map
      (fun c => (GoMap.get c.Subdivisions "62").Capital) = [true] ∧
    (loadCountryData c9Sources).All.map
      (fun c => (GoMap.get c.Subdivisions "62").Type_) = ["region"] ∧
    (loadCountryData c9Sources).All.map
      (fun c => GoMap.get (GoMap.get c.Subdivisions "62").Translations "en") = ["Lazio"] := by
  decide

/-- C9 (amended): for a country of the countries source and a subdivision
listed under its code, the merged record is in `All` and the capital flag of
the merged subdivision is true exactly when the source record already carries
the flag, or its type is "metropolitan_city" and its English translation is
the capital of the merged country; for a source record without the flag, it is
true exactly when the latter holds. -/
theorem C9_capital_flag (src : Sources) (countryAlpha2 : String) (c : Country)
    (code : String) (sd : Subdivision)
    (hc : (countryAlpha2, c) ∈ src.allCountries)
    (hwf : GoMap.WF (GoMap.get src.allSubdivisions countryAlpha2))
    (hsd : (code, sd) ∈ GoMap.get src.allSubdivisions countryAlpha2) :
    mergeCountry src countryAlpha2 c ∈ (loadCountryData src).All ∧
    ((GoMap.get (mergeCountry src countryAlpha2 c).Subdivisions code).Capital = true ↔
      (sd.Capital = true ∨
        (sd.Type_ = "metropolitan_city" ∧
          GoMap.get sd.Translations "en" = (mergeCountry src countryAlpha2 c).Capital))) ∧
    (sd.Capital = false →
      ((GoMap.get (mergeCountry src countryAlpha2 c).Subdivisions code).Capital = true ↔
        (sd.Type_ = "metropolitan_city" ∧
          GoMap.get sd.Translations "en" = (mergeCountry src countryAlpha2 c).Capital))) := by
  have hmem : mergeCountry src countryAlpha2 c ∈ (loadCountryData src).All := by
    rw [(loadCountryData_perm src).mem_iff, List.mem_map]
    exact ⟨(countryAlpha2, c), hc, rfl⟩
  have key := mergeCountry_subdivision src countryAlpha2 c code sd hwf hsd
  have hiff := markCapital_capital (GoMap.get src.allCapitals countryAlpha2) sd
  rw [← key, ← mergeCountry_capital src countryAlpha2 c] at hiff
  refine ⟨hmem, hiff, ?_⟩
  intro hfalse
  rw [hiff]
  simp [hfalse]

/-- C10: when the countries source is keyed by code, `All` holds exactly one
country for each key of the countries source and none for any other code,
whatever the other four sources hold; so `All` is as long as the countries
source. -/
theorem C10_join_complete (src : Sources) (hwf : GoMap.WF src.allCountries)
    (hkey : ∀ entry ∈ src.allCountries, entry.2.Alpha2 = entry.1) :
    (∀ k ∈ src.allCountries.map Prod.fst,
      ((loadCountryData src).All.filter (fun c => decide (c.Alpha2 = k))).length = 1) ∧
    (∀ k, k ∉ src.allCountries.map Prod.fst →
      ∀ c ∈ (loadCountryData src).All, c.Alpha2 ≠ k) ∧
    (loadCountryData src).All.length = src.allCountries.length := by
  have hperm := loadCountryData_perm src
  have hmap : (src.allCountries.map (fun entry => mergeCountry src entry.1 entry.2)).map
      (fun c => c.Alpha2) = src.allCountries.map Prod.fst := by
    rw [List.map_map]
    apply List.map_congr_left
    intro entry he
    exact hkey entry he
  have hcodes : ((loadCountryData src).All.map (fun c => c.Alpha2)).Perm
      (src.allCountries.map Prod.fst) := by
    rw [← hmap]
    exact hperm.map _
  refine ⟨?_, ?_, ?_⟩
  · intro k hk
    have h1 : (src.allCountries.map Prod.fst).count k = 1 :=
      List.count_eq_one_of_mem hwf hk
    rw [← hcodes.count_eq, List.count, List.countP_map, List.countP_eq_length_filter] at h1
    rw [← h1]
    congr 1
  · intro k hk c hc he
    apply hk
    rw [← hcodes.mem_iff, List.mem_map]
    exact ⟨c, hc, he⟩
  · rw [hperm.length_eq, List.length_map]

/-- C10, at concrete sources: "IT" occurs once, "ZZ" (capitals and timezones
only) does not occur. -/
theorem C10_join_complete_witness :
    ((loadCountryData romeSources).All.filter (fun c => decide (c.Alpha2 = "IT"))).length = 1 ∧
    (∀ c ∈ (loadCountryData romeSources).All, c.Alpha2 ≠ "ZZ") ∧
    (loadCountryData romeSources).All.length = romeSources.allCountries.length :=
  ⟨(C10_join_complete romeSources (by decide) (by decide)).1 "IT" (by decide),
   (C10_join_complete romeSources (by decide) (by decide)).2.1 "ZZ" (by decide),
   (C10_join_complete romeSources (by decide) (by decide)).2.2⟩

/-- C9, at concrete sources: with the capital "Rome", the metropolitan city
translated "Rome" is flagged and the region translated "Rome" is not. -/
theorem C9_capital_flag_witness :
    ((GoMap.get (mergeCountry romeSources "IT"
        { (GoZero.zero : Country) with Alpha2 := "IT" }).Subdivisions "RM").Capital = true ↔
      ("metropolitan_city" = "metropolitan_city" ∧ "Rome" = "Rome")) ∧
    (GoMap.get (mergeCountry romeSources "IT"
        { (GoZero.zero : Country) with Alpha2 := "IT" }).Subdivisions "RM").Capital = true ∧
    (GoMap.get (mergeCountry romeSources "IT"
        { (GoZero.zero : Country) with Alpha2 := "IT" }).Subdivisions "62").Capital = false :=
  ⟨(C9_capital_flag romeSources "IT" { (GoZero.zero : Country) with Alpha2 := "IT" } "RM"
      { (GoZero.zero : Subdivision) with
        Name := "Roma", Code := "RM", Type_ := "metropolitan_city",
        Translations := [("en", "Rome")] }
      (by decide) (by decide) (by decide)).2.2 rfl,
   by decide, by decide⟩

/-! ### Membership classification -/

/-- C1: a country is GDPR compliant exactly when its EEA flag is set or its
two-letter code is the string "GB"; so a non-member with code "GB" is
compliant, and a non-member with any other code, "gb" included, is not. -/
theorem C1_gdprCompliant_iff :
    (∀ c : Country, c.GDPRCompliant = true ↔ (c.EEAMember = true ∨ c.Alpha2 = "GB")) ∧
    (∀ c : Country, c.EEAMember = false → c.Alpha2 = "GB" → c.GDPRCompliant = true) ∧
    (∀ c : Country, c.EEAMember = false → c.Alpha2 ≠ "GB" → c.GDPRCompliant = false) ∧
    (∀ c : Country, c.EEAMember = false → c.Alpha2 = "gb" → c.GDPRCompliant = false) := by
  refine ⟨?_, ?_, ?_, ?_⟩
  · intro c
    simp [Country.GDPRCompliant]
  · intro c h1 h2
    simp [Country.GDPRCompliant, h2]
  · intro c h1 h2
    simp [Country.GDPRCompliant, h1, h2]
  · intro c h1 h2
    have h3 : c.Alpha2 ≠ "GB" := by
      rw [h2]
      decide
    simp [Country.GDPRCompliant, h1, h3]

/-! ### The order of strings and `sort.Slice` -/

theorem char_toNat_inj (a b : Char) (h : a.toNat = b.toNat) : a = b := by
  rw [← Char.ofNat_toNat a, ← Char.ofNat_toNat b, h]

theorem stringLess_irrefl (a : List Char) : stringLess a a = false := by
  induction a with
  | nil => rfl
  | cons c a ih => simp [stringLess, ih]

theorem stringLess_trans (a b c : List Char) (h1 : stringLess a b = true)
    (h2 : stringLess b c = true) : stringLess a c = true := by
  induction a generalizing b c with
  | nil =>
    cases b with
    | nil => simp [stringLess] at h1
    | cons y b =>
      cases c with
      | nil => simp [stringLess] at h2
      | cons z c => rfl
  | cons x a ih =>
    cases b with
    | nil => simp [stringLess] at h1
    | cons y b =>
      cases c with
      | nil => simp [stringLess] at h2
      | cons z c =>
        simp only [stringLess] at h1 h2 ⊢
        by_cases hxy : x.toNat < y.toNat
        · by_cases hyz : y.toNat < z.toNat
          · have : x.toNat < z.toNat := Nat.lt_trans hxy hyz
            simp [this]
          · by_cases hzy : z.toNat < y.toNat
            · simp [hyz, hzy] at h2
            · have : x.toNat < z.toNat := by omega
              simp [this]
        · by_cases hyx : y.toNat < x.toNat
          · simp [hxy, hyx] at h1
          · simp only [hxy, hyx, if_false] at h1
            by_cases hyz : y.toNat < z.toNat
            · have : x.toNat < z.toNat := by omega
              simp [this]
            · by_cases hzy : z.toNat < y.toNat
              · simp [hyz, hzy] at h2
              · simp only [hyz, hzy, if_false] at h2
                have e1 : ¬ x.toNat < z.toNat := by omega
                have e2 : ¬ z.toNat < x.toNat := by omega
                simp only [e1, e2, if_false]
                exact ih b c h1 h2

theorem stringLess_trichotomy (a b : List Char) (h1 : stringLess a b = false)
    (h2 : stringLess b a = false) : a = b := by
  induction a generalizing b with
  | nil =>
    cases b with
    | nil => rfl
    | cons y b => simp [stringLess] at h1
  | cons x a ih =>
    cases b with
    | nil => simp [stringLess] at h2
    | cons y b =>
      simp only [stringLess] at h1 h2
      by_cases hxy : x.toNat < y.toNat
      · simp [hxy] at h1
      · by_cases hyx : y.toNat < x.toNat
        · simp [hyx] at h2
        · simp only [hxy, hyx, if_false] at h1 h2
          have e : x = y := char_toNat_inj x y (by omega)
          rw [e, ih b h1 h2]

theorem stringLess_asymm (a b : List Char) (h : stringLess a b = true) :
    stringLess b a = false := by
  cases hba : stringLess b a with
  | false => rfl
  | true =>
    have := stringLess_trans a b a h hba
    rw [stringLess_irrefl] at this
    cases this

/-- The order "not greater" of `stringLess` is transitive. -/
theorem stringLess_le_trans (a b c : List Char) (h1 : stringLess b a = false)
    (h2 : stringLess c b = false) : stringLess c a = false := by
  cases hca : stringLess c a with
  | false => rfl
  | true =>
    cases hbc : stringLess b c with
    | true =>
      have := stringLess_trans b c a hbc hca
      rw [h1] at this
      cases this
    | false =>
      have e : b = c := stringLess_trichotomy b c hbc h2
      rw [e, hca] at h1
      cases h1

theorem sortSlice_perm {α : Type} (less : α → α → Bool) (x : List α) :
    (sortSlice less x).Perm x :=
  List.perm_insertionSort _ _

/-- Sorting by a string key yields a list that is ascending in the key. -/
theorem sortSlice_sorted {α : Type} (key : α → List Char) (x : List α) :
    (sortSlice (fun a b => stringLess (key a) (key b)) x).Pairwise
      (fun a b => stringLess (key b) (key a) = false) := by
  haveI : IsTotal α (fun a b => stringLess (key b) (key a) = false) :=
    ⟨fun a b => by
      cases h : stringLess (key b) (key a) with
      | false => exact Or.inl rfl
      | true => exact Or.inr (stringLess_asymm _ _ h)⟩
  haveI : IsTrans α (fun a b => stringLess (key b) (key a) = false) :=
    ⟨fun a b c h1 h2 => stringLess_le_trans (key a) (key b) (key c) h1 h2⟩
  exact List.sorted_insertionSort (fun a b => stringLess (key b) (key a) = false) x

/-- With pairwise distinct keys the sorted list is strictly ascending. -/
theorem sortSlice_strict {α : Type} (key : α → List Char) (x : List α)
    (hnd : (x.map key).Nodup) :
    (sortSlice (fun a b => stringLess (key a) (key b)) x).Pairwise
      (fun a b => stringLess (key a) (key b) = true) := by
  have hs := sortSlice_sorted key x
  have hp := sortSlice_perm (fun a b => stringLess (key a) (key b)) x
  have hnd2 : ((sortSlice (fun a b => stringLess (key a) (key b)) x).map key).Nodup :=
    (hp.map key).nodup_iff.mpr hnd
  have hne : (sortSlice (fun a b => stringLess (key a) (key b)) x).Pairwise
      (fun a b => key a ≠ key b) := List.pairwise_map.mp hnd2
  refine (hs.and hne).imp ?_
  intro a b hab
  cases hlt : stringLess (key a) (key b) with
  | true => rfl
  | false => exact absurd (stringLess_trichotomy _ _ hlt hab.1) hab.2

theorem string_data_inj (a b : String) (h : a.data = b.data) : a = b := by
  cases a
  cases b
  cases h
  rfl

/-- C11: when the countries source is keyed by code, `All` is strictly
ascending by `Alpha2` in the ordinal comparison of strings: any two records
compare as their positions do. -/
theorem C11_all_sorted (src : Sources) (hwf : GoMap.WF src.allCountries)
    (hkey : ∀ entry ∈ src.allCountries, entry.2.Alpha2 = entry.1) :
    (loadCountryData src).All.Pairwise
      (fun a b => stringLess a.Alpha2.data b.Alpha2.data = true) ∧
    (∀ (i j : Nat) (a b : Country), i < j →
      (loadCountryData src).All[i]? = some a → (loadCountryData src).All[j]? = some b →
      stringLess a.Alpha2.data b.Alpha2.data = true) := by
  have hmap : (src.allCountries.map (fun entry => mergeCountry src entry.1 entry.2)).map
      (fun c => c.Alpha2) = src.allCountries.map Prod.fst := by
    rw [List.map_map]
    apply List.map_congr_left
    intro entry he
    exact hkey entry he
  have hnd : ((src.allCountries.map (fun entry => mergeCountry src entry.1 entry.2)).map
      (fun c => c.Alpha2.data)).Nodup := by
    have h1 : ((src.allCountries.map (fun entry => mergeCountry src entry.1 entry.2)).map
        (fun c => c.Alpha2)).Nodup := by
      rw [hmap]
      exact hwf
    have h2 := List.Nodup.map (f := String.data) (fun a b h => string_data_inj a b h) h1
    rw [List.map_map] at h2
    exact h2
  have hpw : (loadCountryData src).All.Pairwise
      (fun a b => stringLess a.Alpha2.data b.Alpha2.data = true) :=
    sortSlice_strict (fun c : Country => c.Alpha2.data) _ hnd
  refine ⟨hpw, ?_⟩
  intro i j a b hij ha hb
  rw [List.pairwise_iff_getElem] at hpw
  obtain ⟨hi, rfl⟩ := List.getElem?_eq_some.mp ha
  obtain ⟨hj, rfl⟩ := List.getElem?_eq_some.mp hb
  exact hpw i j hi hj hij

/-! ### Maps filled by assignment -/

theorem GoMap.keys_set {κ ν : Type} [DecidableEq κ] (m : GoMap κ ν) (k : κ) (v : ν) :
    (GoMap.set m k v).map Prod.fst =
      if k ∈ m.map Prod.fst then m.map Prod.fst else m.map Prod.fst ++ [k] := by
  induction m with
  | nil => simp [GoMap.set]
  | cons p m ih =>
    obtain ⟨k0, v0⟩ := p
    by_cases h0 : k0 = k
    · subst h0
      simp [GoMap.set]
    · have h1 : ¬ k = k0 := fun e => h0 e.symm
      simp only [GoMap.set, if_neg h0, List.map_cons, ih, List.mem_cons, h1, false_or]
      split <;> simp

theorem GoMap.mem_keys_set {κ ν : Type} [DecidableEq κ] (m : GoMap κ ν) (k k2 : κ) (v : ν) :
    k2 ∈ (GoMap.set m k v).map Prod.fst ↔ k2 = k ∨ k2 ∈ m.map Prod.fst := by
  rw [GoMap.keys_set]
  split
  · rename_i h
    constructor
    · intro h2
      exact Or.inr h2
    · rintro (h2 | h2)
      · rw [h2]
        exact h
      · exact h2
  · rw [List.mem_append, List.mem_singleton]
    exact Or.comm

theorem GoMap.wf_set {κ ν : Type} [DecidableEq κ] (m : GoMap κ ν) (k : κ) (v : ν)
    (h : GoMap.WF m) : GoMap.WF (GoMap.set m k v) := by
  unfold GoMap.WF at h ⊢
  rw [GoMap.keys_set]
  split
  · exact h
  · rename_i hk
    rw [List.nodup_append]
    refine ⟨h, List.nodup_singleton k, ?_⟩
    intro a ha hb
    rw [List.mem_singleton] at hb
    exact hk (hb ▸ ha)

theorem GoMap.set_absent {κ ν : Type} [DecidableEq κ] (m : GoMap κ ν) (k : κ) (v : ν)
    (h : k ∉ m.map Prod.fst) : GoMap.set m k v = m ++ [(k, v)] := by
  induction m with
  | nil => rfl
  | cons p m ih =>
    obtain ⟨k0, v0⟩ := p
    have h0 : k0 ≠ k := fun e => h (by simp [e])
    have h1 : k ∉ m.map Prod.fst := fun e => h (by simp [e])
    simp [GoMap.set, h0, ih h1]

/-- Filling an empty map from the entries of a map, one assignment per entry,
yields the entries in the same order. -/
theorem GoMap.foldl_set_append {κ ν μ : Type} [DecidableEq κ] (g : κ × ν → μ)
    (l : GoMap κ ν) (acc : GoMap κ μ)
    (hl : GoMap.WF l) (hd : ∀ k ∈ l.map Prod.fst, k ∉ acc.map Prod.fst) :
    l.foldl (fun m entry => GoMap.set m entry.1 (g entry)) acc =
      acc ++ l.map (fun entry => (entry.1, g entry)) := by
  induction l generalizing acc with
  | nil => simp
  | cons p l ih =>
    have hnd : p.1 ∉ l.map Prod.fst ∧ GoMap.WF l := List.nodup_cons.mp hl
    have hp : p.1 ∉ acc.map Prod.fst := hd p.1 (by simp)
    rw [List.foldl_cons, GoMap.set_absent acc p.1 (g p) hp, ih _ hnd.2]
    · simp
    · intro k hk hk2
      rw [List.map_append, List.mem_append] at hk2
      rcases hk2 with hk2 | hk2
      · exact hd k (by simp [hk]) hk2
      · simp only [List.map_cons, List.map_nil, List.mem_singleton] at hk2
        rw [hk2] at hk
        exact hnd.1 hk

theorem GoMap.foldl_set_nil {κ ν μ : Type} [DecidableEq κ] (g : κ × ν → μ)
    (l : GoMap κ ν) (hl : GoMap.WF l) :
    l.foldl (fun m entry => GoMap.set m entry.1 (g entry)) [] =
      l.map (fun entry => (entry.1, g entry)) := by
  rw [GoMap.foldl_set_append g l [] hl (by simp)]
  rfl

theorem GoMap.find_of_mem {κ ν : Type} [DecidableEq κ] (m : GoMap κ ν) (hm : GoMap.WF m)
    (k : κ) (v : ν) (h : (k, v) ∈ m) : GoMap.find m k = some v := by
  induction m with
  | nil => cases h
  | cons p m ih =>
    obtain ⟨k0, v0⟩ := p
    have hnd : k0 ∉ m.map Prod.fst ∧ GoMap.WF m := List.nodup_cons.mp hm
    rcases List.mem_cons.mp h with h | h
    · cases h
      simp [GoMap.find]
    · have hne : k0 ≠ k := by
        intro e
        apply hnd.1
        rw [e]
        exact List.mem_map_of_mem Prod.fst h
      simp [GoMap.find, hne, ih hnd.2 h]

theorem GoMap.find_none_iff {κ ν : Type} [DecidableEq κ] (m : GoMap κ ν) (k : κ) :
    GoMap.find m k = none ↔ k ∉ m.map Prod.fst := by
  induction m with
  | nil => simp [GoMap.find]
  | cons p m ih =>
    obtain ⟨k0, v0⟩ := p
    by_cases h : k0 = k
    · simp [GoMap.find, h]
    · have h2 : ¬ k = k0 := fun e => h e.symm
      simp [GoMap.find, h, h2, ih]

/-! ### The derived lists of the aggregation -/

/-- The set that `regions` and `subregions` collect, for the field `field`. -/
theorem fieldSet_keys (field : Country → String) (countries : List Country)
    (acc : GoMap String Unit) (hacc : GoMap.WF acc) :
    GoMap.WF (countries.foldl
      (fun set c => if field c ≠ "" then GoMap.set set (field c) () else set) acc) ∧
    ∀ r, r ∈ (countries.foldl
        (fun set c => if field c ≠ "" then GoMap.set set (field c) () else set) acc).map
          Prod.fst ↔
      (r ∈ acc.map Prod.fst ∨ (r ≠ "" ∧ ∃ c ∈ countries, field c = r)) := by
  induction countries generalizing acc with
  | nil =>
    refine ⟨hacc, ?_⟩
    intro r
    simp
  | cons c cs ih =>
    rw [List.foldl_cons]
    by_cases hc : field c ≠ ""
    · rw [if_pos hc]
      obtain ⟨h1, h2⟩ := ih (GoMap.set acc (field c) ()) (GoMap.wf_set acc _ _ hacc)
      refine ⟨h1, ?_⟩
      intro r
      rw [h2 r, GoMap.mem_keys_set]
      constructor
      · rintro ((h | h) | ⟨hr, d, hd, hdr⟩)
        · exact Or.inr ⟨h ▸ hc, c, List.mem_cons_self _ _, h.symm⟩
        · exact Or.inl h
        · exact Or.inr ⟨hr, d, List.mem_cons_of_mem _ hd, hdr⟩
      · rintro (h | ⟨hr, d, hd, hdr⟩)
        · exact Or.inl (Or.inr h)
        · rcases List.mem_cons.mp hd with hd | hd
          · subst hd
            exact Or.inl (Or.inl hdr.symm)
          · exact Or.inr ⟨hr, d, hd, hdr⟩
    · rw [if_neg hc]
      obtain ⟨h1, h2⟩ := ih acc hacc
      refine ⟨h1, ?_⟩
      intro r
      rw [h2 r]
      constructor
      · rintro (h | ⟨hr, d, hd, hdr⟩)
        · exact Or.inl h
        · exact Or.inr ⟨hr, d, List.mem_cons_of_mem _ hd, hdr⟩
      · rintro (h | ⟨hr, d, hd, hdr⟩)
        · exact Or.inl h
        · rcases List.mem_cons.mp hd with hd | hd
          · subst hd
            exact absurd (hdr ▸ hr) hc
          · exact Or.inr ⟨hr, d, hd, hdr⟩

/-- The sorted keys of the set collected for a field: every non-empty value
of the field, once, in strictly ascending order. -/
theorem sortedFieldSet_spec (field : Country → String) (countries : List Country) :
    (∀ r, r ∈ sortSlice (fun a b : String => stringLess a.data b.data)
        ((countries.foldl (fun set c => if field c ≠ "" then GoMap.set set (field c) () else set)
          ([] : GoMap String Unit)).map Prod.fst) ↔
      (r ≠ "" ∧ ∃ c ∈ countries, field c = r)) ∧
    (sortSlice (fun a b : String => stringLess a.data b.data)
      ((countries.foldl (fun set c => if field c ≠ "" then GoMap.set set (field c) () else set)
        ([] : GoMap String Unit)).map Prod.fst)).Nodup ∧
    (sortSlice (fun a b : String => stringLess a.data b.data)
      ((countries.foldl (fun set c => if field c ≠ "" then GoMap.set set (field c) () else set)
        ([] : GoMap String Unit)).map Prod.fst)).Pairwise
      (fun a b => stringLess a.data b.data = true) := by
  obtain ⟨hwf, hmem⟩ := fieldSet_keys field countries [] List.nodup_nil
  have hp := sortSlice_perm (fun a b : String => stringLess a.data b.data)
    ((countries.foldl (fun set c => if field c ≠ "" then GoMap.set set (field c) () else set)
      ([] : GoMap String Unit)).map Prod.fst)
  refine ⟨?_, ?_, ?_⟩
  · intro r
    rw [hp.mem_iff, hmem r]
    simp
  · exact hp.nodup_iff.mpr hwf
  · apply sortSlice_strict (fun a : String => a.data)
    exact List.Nodup.map (fun a b h => string_data_inj a b h) hwf

/-- C12: `regions` holds exactly the non-empty `Region` values of the list,
each once, in strictly ascending order, and `subregions` does the same for
the field `Subregion`. -/
theorem C12_regions_spec (countries : List Country) :
    ((∀ r, r ∈ regions countries ↔ (r ≠ "" ∧ ∃ c ∈ countries, c.Region = r)) ∧
      (regions countries).Nodup ∧
      (regions countries).Pairwise (fun a b => stringLess a.data b.data = true)) ∧
    ((∀ r, r ∈ subregions countries ↔ (r ≠ "" ∧ ∃ c ∈ countries, c.Subregion = r)) ∧
      (subregions countries).Nodup ∧
      (subregions countries).Pairwise (fun a b => stringLess a.data b.data = true)) :=
  ⟨sortedFieldSet_spec (fun c => c.Region) countries,
   sortedFieldSet_spec (fun c => c.Subregion) countries⟩

theorem mem_all_of_mem (src : Sources) (k : String) (c : Country)
    (hc : (k, c) ∈ src.allCountries) : mergeCountry src k c ∈ (loadCountryData src).All := by
  rw [(loadCountryData_perm src).mem_iff, List.mem_map]
  exact ⟨(k, c), hc, rfl⟩

theorem mergeCountry_translations (src : Sources) (k : String) (c : Country)
    (hwf : GoMap.WF src.allTranslations) :
    (mergeCountry src k c).Translations =
      src.allTranslations.map (fun entry => (entry.1, GoMap.get entry.2 k)) :=
  GoMap.foldl_set_nil (fun entry : String × GoMap String String => GoMap.get entry.2 k)
    src.allTranslations hwf

theorem mergeCountry_subdivisions (src : Sources) (k : String) (c : Country)
    (hwf : GoMap.WF (GoMap.get src.allSubdivisions k)) :
    (mergeCountry src k c).Subdivisions =
      (GoMap.get src.allSubdivisions k).map
        (fun entry => (entry.1, markCapital (GoMap.get src.allCapitals k) entry.2)) :=
  GoMap.foldl_set_nil
    (fun entry : String × Subdivision => markCapital (GoMap.get src.allCapitals k) entry.2)
    (GoMap.get src.allSubdivisions k) hwf

theorem GoMap.get_of_find_none {κ ν : Type} [DecidableEq κ] [GoZero ν] (m : GoMap κ ν) (k : κ)
    (h : GoMap.find m k = none) : GoMap.get m k = GoZero.zero := by
  unfold GoMap.get
  rw [h]

/-- C11, at concrete sources enumerated in the order IT, JP, FR, AQ. -/
theorem C11_all_sorted_witness :
    (loadCountryData worldSources).All.Pairwise
      (fun a b => stringLess a.Alpha2.data b.Alpha2.data = true) ∧
    (loadCountryData worldSources).Alpha2 = ["AQ", "FR", "IT", "JP"] :=
  ⟨(C11_all_sorted worldSources (by decide) (by decide)).1, by decide⟩

/-- C13: the merged record of an entry `k` of the countries source has a
translation for exactly the locales of the translations source; under a
locale it holds the entry of that locale for `k`, and the empty string, still
recorded, when the locale has no entry for `k`. -/
theorem C13_translations (src : Sources) (k : String) (c : Country)
    (hc : (k, c) ∈ src.allCountries) (hwf : GoMap.WF src.allTranslations) :
    mergeCountry src k c ∈ (loadCountryData src).All ∧
    (∀ l, l ∈ (mergeCountry src k c).Translations.map Prod.fst ↔
      l ∈ src.allTranslations.map Prod.fst) ∧
    GoMap.WF (mergeCountry src k c).Translations ∧
    (∀ (l : String) (translations : GoMap String String),
      (l, translations) ∈ src.allTranslations →
      GoMap.find (mergeCountry src k c).Translations l = some (GoMap.get translations k) ∧
      (∀ name, GoMap.find translations k = some name →
        GoMap.get (mergeCountry src k c).Translations l = name) ∧
      (GoMap.find translations k = none →
        GoMap.find (mergeCountry src k c).Translations l = some "")) := by
  have hT := mergeCountry_translations src k c hwf
  have hkeys : (mergeCountry src k c).Translations.map Prod.fst =
      src.allTranslations.map Prod.fst := by
    rw [hT, List.map_map]
    rfl
  have hwf2 : GoMap.WF (mergeCountry src k c).Translations := by
    unfold GoMap.WF
    rw [hkeys]
    exact hwf
  refine ⟨mem_all_of_mem src k c hc, ?_, hwf2, ?_⟩
  · intro l
    rw [hkeys]
  · intro l translations hl
    have hfind : GoMap.find (mergeCountry src k c).Translations l =
        some (GoMap.get translations k) := by
      apply GoMap.find_of_mem _ hwf2
      rw [hT, List.mem_map]
      exact ⟨(l, translations), hl, rfl⟩
    refine ⟨hfind, ?_, ?_⟩
    · intro name hname
      rw [GoMap.get_of_find _ _ _ hfind]
      exact GoMap.get_of_find _ _ _ hname
    · intro hnone
      rw [hfind, GoMap.get_of_find_none _ _ hnone]
      rfl

/-- C13, at concrete sources: the German locale has no entry for "FR". -/
theorem C13_translations_witness :
    GoMap.find (mergeCountry worldSources "FR"
        { (GoZero.zero : Country) with
          Alpha2 := "FR", Region := "Europe", Subregion := "Western Europe",
          EUMember := true }).Translations "de" = some "" ∧
    (mergeCountry worldSources "FR"
        { (GoZero.zero : Country) with
          Alpha2 := "FR", Region := "Europe", Subregion := "Western Europe",
          EUMember := true }).Translations = [("en", "France"), ("de", "")] :=
  ⟨((C13_translations worldSources "FR"
        { (GoZero.zero : Country) with
          Alpha2 := "FR", Region := "Europe", Subregion := "Western Europe",
          EUMember := true }
        (by decide) (by decide)).2.2.2 "de" [("IT", "Italien")] (by decide)).2.2 (by decide),
   by decide⟩

/-- C14: for an entry `k` of the countries source that is absent from the
capitals, timezones and subdivisions sources, the merged record is in `All`,
its capital is the empty string, its timezones and subdivisions are empty,
and every other field but the translations is that of the source record. -/
theorem C14_missing_data (src : Sources) (k : String) (c : Country)
    (hc : (k, c) ∈ src.allCountries)
    (hcap : GoMap.find src.allCapitals k = none)
    (htz : GoMap.find src.allTimezones k = none)
    (hsub : GoMap.find src.allSubdivisions k = none) :
    mergeCountry src k c ∈ (loadCountryData src).All ∧
    (mergeCountry src k c).Capital = "" ∧
    (mergeCountry src k c).Timezones = [] ∧
    (mergeCountry src k c).Subdivisions = [] ∧
    mergeCountry src k c =
      { c with
        Capital := ""
        Timezones := []
        Subdivisions := []
        Translations := (mergeCountry src k c).Translations } := by
  have h1 : GoMap.get src.allCapitals k = "" := GoMap.get_of_find_none _ _ hcap
  have h2 : GoMap.get src.allTimezones k = [] := GoMap.get_of_find_none _ _ htz
  have h3 : GoMap.get src.allSubdivisions k = [] := GoMap.get_of_find_none _ _ hsub
  have e1 : (mergeCountry src k c).Capital = "" := h1
  have e2 : (mergeCountry src k c).Timezones = [] := h2
  have e3 : (mergeCountry src k c).Subdivisions = [] := by
    show (GoMap.get src.allSubdivisions k).foldl _ [] = []
    rw [h3]
    rfl
  refine ⟨mem_all_of_mem src k c hc, e1, e2, e3, ?_⟩
  rw [← e1, ← e2, ← e3]
  rfl

/-- C14, at concrete sources: "JP" occurs in the countries source only. -/
theorem C14_missing_data_witness :
    (mergeCountry worldSources "JP"
        { (GoZero.zero : Country) with
          Alpha2 := "JP", Region := "Asia", Subregion := "Eastern Asia" }).Capital = "" ∧
    (loadCountryData worldSources).All.map (fun c => (c.Alpha2, c.Capital, c.Timezones)) =
      [("AQ", "", []), ("FR", "Paris", ["Europe/Paris"]), ("IT", "Rome", ["Europe/Rome"]),
       ("JP", "", [])] :=
  ⟨(C14_missing_data worldSources "JP"
        { (GoZero.zero : Country) with
          Alpha2 := "JP", Region := "Asia", Subregion := "Eastern Asia" }
        (by decide) (by decide) (by decide) (by decide)).2.1,
   by decide⟩

/-! ### Filters and lookup by name -/

/-- The loop shared by the three filters selects the matching records in order. -/
theorem filterLoop_eq (p : Country → Bool) (l acc : List Country) :
    l.foldl (fun result c => if p c = true then GoSlice.append result c else result)
      (some acc) = some (acc ++ l.filter p) := by
  induction l generalizing acc with
  | nil => simp
  | cons c l ih =>
    rw [List.foldl_cons]
    by_cases hc : p c = true
    · rw [if_pos hc]
      show List.foldl _ (some (acc ++ [c])) l = _
      rw [ih, List.filter_cons_of_pos hc]
      simp
    · rw [if_neg hc, ih, List.filter_cons_of_neg hc]

/-- C15: for every dataset, `InRegion`, `InSubregion` and `InEU` return the
records of `Data.All` whose region is the given one, whose subregion is the
given one, and whose EU flag is set, in the order of `Data.All`; a region or
subregion of no record yields the empty slice, which is not nil. -/
theorem C15_filters (Data : CountryData) :
    (∀ r : String,
      InRegion Data r = some (Data.All.filter (fun c => decide (c.Region = r))) ∧
      ((∀ c ∈ Data.All, c.Region ≠ r) → InRegion Data r = some [])) ∧
    (∀ r : String,
      InSubregion Data r = some (Data.All.filter (fun c => decide (c.Subregion = r))) ∧
      ((∀ c ∈ Data.All, c.Subregion ≠ r) → InSubregion Data r = some [])) ∧
    InEU Data = some (Data.All.filter (fun c => c.EUMember)) := by
  have hR : ∀ r : String,
      InRegion Data r = some (Data.All.filter (fun c => decide (c.Region = r))) := by
    intro r
    have := filterLoop_eq (fun c => decide (c.Region = r)) Data.All []
    simp only [decide_eq_true_eq, List.nil_append] at this
    exact this
  have hS : ∀ r : String,
      InSubregion Data r = some (Data.All.filter (fun c => decide (c.Subregion = r))) := by
    intro r
    have := filterLoop_eq (fun c => decide (c.Subregion = r)) Data.All []
    simp only [decide_eq_true_eq, List.nil_append] at this
    exact this
  refine ⟨?_, ?_, ?_⟩
  · intro r
    refine ⟨hR r, ?_⟩
    intro hnone
    rw [hR r]
    congr 1
    rw [List.filter_eq_nil_iff]
    intro c hc
    simpa using hnone c hc
  · intro r
    refine ⟨hS r, ?_⟩
    intro hnone
    rw [hS r]
    congr 1
    rw [List.filter_eq_nil_iff]
    intro c hc
    simpa using hnone c hc
  · have := filterLoop_eq (fun c => c.EUMember) Data.All []
    simpa [InEU] using this

/-- C15, at a concrete dataset. -/
theorem C15_filters_witness :
    (InRegion (loadCountryData worldSources) "Europe").map (fun l => l.map (fun c => c.Alpha2)) =
      some ["FR", "IT"] ∧
    InRegion (loadCountryData worldSources) "Oceania" = some [] ∧
    (InEU (loadCountryData worldSources)).map (fun l => l.map (fun c => c.Alpha2)) =
      some ["FR", "IT"] :=
  ⟨by decide,
   ((C15_filters (loadCountryData worldSources)).1 "Oceania").2 (by decide),
   by decide⟩

theorem subdivisionByNameLoop_first (pre post : List (String × Subdivision)) (k : String)
    (sd : Subdivision) (name : String) (hsd : sd.Name = name)
    (hpre : ∀ q ∈ pre, q.2.Name ≠ name) :
    subdivisionByNameLoop (pre ++ (k, sd) :: post) name = sd := by
  induction pre with
  | nil => simp [subdivisionByNameLoop, hsd]
  | cons q pre ih =>
    obtain ⟨k0, s0⟩ := q
    have h1 : s0.Name ≠ name := hpre (k0, s0) (List.mem_cons_self _ _)
    have h2 : ∀ q ∈ pre, q.2.Name ≠ name := fun q hq => hpre q (List.mem_cons_of_mem _ hq)
    simp only [List.cons_append, subdivisionByNameLoop, if_neg h1]
    exact ih h2

/-- C18: when some subdivision has the name, `SubdivisionByName` returns a
subdivision of the country with that name, namely the first one in the order
of enumeration; when none has it, the zero value, whose name and code are
empty; when exactly one has it, that one. -/
theorem C18_subdivisionByName (c : Country) (name : String) :
    ((∃ p ∈ c.Subdivisions, p.2.Name = name) →
      ∃ p ∈ c.Subdivisions, p.2.Name = name ∧ c.SubdivisionByName name = p.2) ∧
    (∀ (pre post : List (String × Subdivision)) (k : String) (sd : Subdivision),
      c.Subdivisions = pre ++ (k, sd) :: post → sd.Name = name →
      (∀ q ∈ pre, q.2.Name ≠ name) → c.SubdivisionByName name = sd) ∧
    ((∀ p ∈ c.Subdivisions, p.2.Name ≠ name) →
      c.SubdivisionByName name = GoZero.zero ∧
      (c.SubdivisionByName name).Name = "" ∧ (c.SubdivisionByName name).Code = "") ∧
    (∀ (k : String) (sd : Subdivision), (k, sd) ∈ c.Subdivisions → sd.Name = name →
      (∀ p ∈ c.Subdivisions, p.2.Name = name → p = (k, sd)) →
      c.SubdivisionByName name = sd) := by
  refine ⟨?_, ?_, ?_, ?_⟩
  · intro h
    exact subdivisionByNameLoop_mem c.Subdivisions name h
  · intro pre post k sd hsplit hsd hpre
    unfold Country.SubdivisionByName
    rw [hsplit]
    exact subdivisionByNameLoop_first pre post k sd name hsd hpre
  · intro h
    have hz : c.SubdivisionByName name = GoZero.zero :=
      subdivisionByNameLoop_none c.Subdivisions name h
    refine ⟨hz, ?_, ?_⟩
    · rw [hz]
      rfl
    · rw [hz]
      rfl
  · intro k sd hmem hsd huniq
    obtain ⟨p, hp, hpn, hpe⟩ :=
      subdivisionByNameLoop_mem c.Subdivisions name ⟨(k, sd), hmem, hsd⟩
    unfold Country.SubdivisionByName
    rw [hpe, huniq p hp hpn]

/-- C18, at a concrete country. -/
theorem C18_subdivisionByName_witness :
    (∃ p ∈ regionCountry.Subdivisions,
      p.2.Name = "LAZ" ∧ regionCountry.SubdivisionByName "LAZ" = p.2) ∧
    (regionCountry.SubdivisionByName "LAZ").Code = "LOM" ∧
    regionCountry.SubdivisionByName "Nowhere" = GoZero.zero :=
  ⟨(C18_subdivisionByName regionCountry "LAZ").1 (by decide),
   by decide,
   ((C18_subdivisionByName regionCountry "Nowhere").2.2.1 (by decide)).1⟩

/-! ### The dispatch table of `Get` -/

theorem ascending_pairwise (l : List (List Char)) (h : ascending l = true) :
    l.Pairwise (fun a b => stringLess a b = true) := by
  induction l with
  | nil => exact List.Pairwise.nil
  | cons a l ih =>
    cases l with
    | nil => exact List.pairwise_singleton _ _
    | cons b rest =>
      simp only [ascending, Bool.and_eq_true] at h
      have hrest := ih h.2
      rw [List.pairwise_cons]
      refine ⟨?_, hrest⟩
      intro x hx
      rcases List.mem_cons.mp hx with hx | hx
      · rw [hx]
        exact h.1
      · exact stringLess_trans a b x h.1 ((List.pairwise_cons.mp hrest).1 x hx)

theorem getCases_ascending :
    (getCases.map (fun e => e.1.data)).Pairwise (fun a b => stringLess a b = true) :=
  ascending_pairwise _ (by decide)

theorem getCases_wf : GoMap.WF getCases := by
  have h : (getCases.map (fun e => e.1.data)).Nodup := by
    refine getCases_ascending.imp ?_
    intro a b hab e
    rw [e, stringLess_irrefl] at hab
    cases hab
  have h2 : ((getCases.map Prod.fst).map String.data).Nodup := by
    rw [List.map_map]
    exact h
  exact List.Nodup.of_map _ h2

theorem getCases_index (code : String) (i : Nat) (h : (code, i) ∈ getCases) :
    getCases[i]? = some (code, i) := by
  obtain ⟨j, hj⟩ := List.getElem?_of_mem h
  have h1 : (getCases.map Prod.snd)[j]? = some i := by
    rw [List.getElem?_map, hj]
    rfl
  have h2 : getCases.map Prod.snd = List.range 249 := by decide
  rw [h2] at h1
  have hlt : j < 249 := by
    have := (List.getElem?_eq_some.mp h1).1
    simpa using this
  rw [List.getElem?_range hlt] at h1
  cases h1
  exact hj

theorem get_of_absent (Data : CountryData) (code : String)
    (h : code ∉ getCases.map Prod.fst) : Get Data code = GetResult.null := by
  have hnone : getCase code = none := (GoMap.find_none_iff getCases code).mpr h
  simp [Get, hnone]

/-- A dataset that is ascending in `Alpha2` and holds exactly the codes of the
table holds them at the positions of the table. -/
theorem all_codes_eq (Data : CountryData)
    (hsorted : Data.All.Pairwise (fun a b => stringLess b.Alpha2.data a.Alpha2.data = false))
    (hperm : (Data.All.map (fun c => c.Alpha2)).Perm (getCases.map Prod.fst)) :
    Data.All.map (fun c => c.Alpha2.data) = getCases.map (fun e => e.1.data) := by
  haveI : IsAntisymm (List Char) (fun a b => stringLess b a = false) :=
    ⟨fun a b h1 h2 => stringLess_trichotomy a b h2 h1⟩
  have hp : (Data.All.map (fun c => c.Alpha2.data)).Perm (getCases.map (fun e => e.1.data)) := by
    have := hperm.map String.data
    rw [List.map_map, List.map_map] at this
    exact this
  have hs1 : (Data.All.map (fun c => c.Alpha2.data)).Sorted
      (fun a b => stringLess b a = false) := List.pairwise_map.mpr hsorted
  have hs2 : (getCases.map (fun e => e.1.data)).Sorted
      (fun a b => stringLess b a = false) :=
    getCases_ascending.imp (fun hab => stringLess_asymm _ _ hab)
  exact List.eq_of_perm_of_sorted hp hs1 hs2

/-- C17: the table of `Get` has 249 cases whose indices are 0 to 248 in order
and whose codes are strictly ascending.  For every dataset that is ascending
in `Alpha2` and whose `Alpha2` values are those 249 codes, and for every
listed code, `Get` returns the address of an element in bounds, and that
record has the code as its `Alpha2`; for a string that is not listed, as
"us", "" and "XX", `Get` returns nil. -/
theorem C17_get_dispatch :
    (getCases.length = 249 ∧ getCases.map Prod.snd = List.range 249 ∧
      (getCases.map (fun e => e.1.data)).Pairwise (fun a b => stringLess a b = true)) ∧
    (∀ Data : CountryData,
      Data.All.Pairwise (fun a b => stringLess b.Alpha2.data a.Alpha2.data = false) →
      (Data.All.map (fun c => c.Alpha2)).Perm (getCases.map Prod.fst) →
      ∀ (code : String) (i : Nat), (code, i) ∈ getCases →
        ∃ c, Get Data code = GetResult.ref i c ∧ Data.All[i]? = some c ∧ c.Alpha2 = code) ∧
    (∀ (Data : CountryData) (code : String), code ∉ getCases.map Prod.fst →
      Get Data code = GetResult.null) ∧
    (∀ Data : CountryData, Get Data "us" = GetResult.null ∧ Get Data "" = GetResult.null ∧
      Get Data "XX" = GetResult.null) := by
  refine ⟨⟨by decide, by decide, getCases_ascending⟩, ?_, get_of_absent, ?_⟩
  · intro Data hsorted hperm code i hmem
    have hcodes := all_codes_eq Data hsorted hperm
    have hfind : getCase code = some i := GoMap.find_of_mem getCases getCases_wf code i hmem
    have hidx := getCases_index code i hmem
    have h1 : (Data.All.map (fun c => c.Alpha2.data))[i]? = some code.data := by
      rw [hcodes, List.getElem?_map, hidx]
      rfl
    rw [List.getElem?_map] at h1
    cases hc : Data.All[i]? with
    | none =>
      rw [hc] at h1
      cases h1
    | some c =>
      rw [hc] at h1
      have hdata : c.Alpha2.data = code.data := by
        simpa using h1
      refine ⟨c, ?_, rfl, string_data_inj _ _ hdata⟩
      simp [Get, hfind, hc]
  · intro Data
    exact ⟨get_of_absent Data "us" (by decide), get_of_absent Data "" (by decide),
      get_of_absent Data "XX" (by decide)⟩

theorem tableData_codes : tableData.All.map (fun c => c.Alpha2) = getCases.map Prod.fst := by
  unfold tableData
  simp only [List.map_map]
  rfl

theorem tableData_sorted :
    tableData.All.Pairwise (fun a b => stringLess b.Alpha2.data a.Alpha2.data = false) := by
  have h : (tableData.All.map (fun c => c.Alpha2.data)).Pairwise
      (fun a b => stringLess b a = false) := by
    have e : tableData.All.map (fun c => c.Alpha2.data) = getCases.map (fun e => e.1.data) := by
      unfold tableData
      simp only [List.map_map]
      rfl
    rw [e]
    exact getCases_ascending.imp (fun hab => stringLess_asymm _ _ hab)
  exact List.pairwise_map.mp h

/-- C17, at the dataset of the table. -/
theorem C17_get_dispatch_witness :
    (∃ c, Get tableData "FR" = GetResult.ref 74 c ∧ tableData.All[74]? = some c ∧
      c.Alpha2 = "FR") ∧
    Get tableData "fr" = GetResult.null :=
  ⟨C17_get_dispatch.2.1 tableData tableData_sorted (tableData_codes ▸ List.Perm.refl _)
      "FR" 74 (by decide),
   C17_get_dispatch.2.2.1 tableData "fr" (by decide)⟩

/-- C16 as stated fails: the dataset holds "FR" only, "AD" and "AE" are the
`Alpha2` of none of its records, and `Get` returns the record of "FR" for
"AD" and runs out of range for "AE". -/
theorem C16_counterexample :
    frData.All.map (fun c => c.Alpha2) = ["FR"] ∧
    (∃ c, Get frData "AD" = GetResult.ref 0 c ∧ c.Alpha2 = "FR") ∧
    Get frData "AE" = GetResult.panics := by
  refine ⟨by decide, ⟨_, rfl, rfl⟩, by decide⟩

/-- C16 (amended): for every dataset `Get` returns nil for a string that is
not one of the 249 codes of its table; so when the dataset holds a record for
every code of the table, `Get` returns nil for every string that is the
`Alpha2` of none of its records. -/
theorem C16_get_not_found (Data : CountryData) (code : String) :
    (code ∉ getCases.map Prod.fst → Get Data code = GetResult.null) ∧
    ((∀ listed ∈ getCases.map Prod.fst, ∃ c ∈ Data.All, c.Alpha2 = listed) →
      (∀ c ∈ Data.All, c.Alpha2 ≠ code) → Get Data code = GetResult.null) := by
  refine ⟨get_of_absent Data code, ?_⟩
  intro hall hnot
  apply get_of_absent
  intro hmem
  obtain ⟨c, hc, he⟩ := hall code hmem
  exact hnot c hc he

/-- C16, at concrete datasets. -/
theorem C16_get_not_found_witness :
    Get frData "us" = GetResult.null ∧ Get tableData "XX" = GetResult.null :=
  ⟨(C16_get_not_found frData "us").1 (by decide),
   (C16_get_not_found tableData "XX").2
    (by
      intro listed hl
      rw [← tableData_codes, List.mem_map] at hl
      exact hl)
    (by
      intro c hc he
      have hmem : "XX" ∈ getCases.map Prod.fst := by
        rw [← tableData_codes, List.mem_map]
        exact ⟨c, hc, he⟩
      revert hmem
      decide)⟩

/-! ### The subdivisions source after the aggregation -/

theorem markCapital_idem (capital : String) (sd : Subdivision) :
    markCapital capital (markCapital capital sd) = markCapital capital sd := by
  unfold markCapital
  by_cases h : sd.Type_ = "metropolitan_city" ∧ GoMap.get sd.Translations "en" = capital
  · simp [h]
  · simp [h]

theorem markCapital_eq (capital : String) (sd : Subdivision) :
    markCapital capital sd =
      { sd with
        Capital := sd.Capital ||
          decide (sd.Type_ = "metropolitan_city" ∧ GoMap.get sd.Translations "en" = capital) } := by
  unfold markCapital
  by_cases h : sd.Type_ = "metropolitan_city" ∧ GoMap.get sd.Translations "en" = capital
  · simp [h]
  · simp [h]

theorem markAll_idem (capital : String) (m : GoMap String Subdivision) :
    (m.map (fun entry => (entry.1, markCapital capital entry.2))).map
        (fun entry => (entry.1, markCapital capital entry.2)) =
      m.map (fun entry => (entry.1, markCapital capital entry.2)) := by
  rw [List.map_map]
  apply List.map_congr_left
  intro entry _
  simp [markCapital_idem]

theorem find_writeCapitals (caps : GoMap String String)
    (subs : GoMap String (GoMap String Subdivision)) (k0 k : String) :
    GoMap.find (writeCapitals caps subs k0) k =
      if k0 = k then
        (GoMap.find subs k).map
          (fun m => m.map (fun entry => (entry.1, markCapital (GoMap.get caps k) entry.2)))
      else GoMap.find subs k := by
  unfold writeCapitals
  by_cases h : k0 = k
  · subst h
    rw [if_pos rfl]
    cases hf : GoMap.find subs k0 with
    | none => simp [hf]
    | some m => simp [GoMap.find_set]
  · rw [if_neg h]
    cases hf : GoMap.find subs k0 with
    | none => rfl
    | some m => simp [GoMap.find_set, h]

theorem keys_writeCapitals (caps : GoMap String String)
    (subs : GoMap String (GoMap String Subdivision)) (k0 : String) :
    (writeCapitals caps subs k0).map Prod.fst = subs.map Prod.fst := by
  unfold writeCapitals
  cases hf : GoMap.find subs k0 with
  | none => rfl
  | some m =>
    have hmem : k0 ∈ subs.map Prod.fst := by
      by_contra hn
      rw [(GoMap.find_none_iff subs k0).mpr hn] at hf
      cases hf
    simp only [GoMap.keys_set, if_pos hmem]

theorem readsStable_write (src : Sources) (subs : GoMap String (GoMap String Subdivision))
    (k0 : String) (h : ReadsStable src subs) :
    ReadsStable src (writeCapitals src.allCapitals subs k0) := by
  intro k
  rw [find_writeCapitals]
  by_cases hk : k0 = k
  · rw [if_pos hk]
    right
    rcases h k with e | e
    · rw [e]
    · rw [e]
      cases GoMap.find src.allSubdivisions k with
      | none => rfl
      | some m => exact congrArg some (markAll_idem _ m)
  · rw [if_neg hk]
    exact h k

theorem mergeCountry_stable (src : Sources) (subs : GoMap String (GoMap String Subdivision))
    (h : ReadsStable src subs) (k : String) (c : Country) :
    mergeCountry { src with allSubdivisions := subs } k c = mergeCountry src k c := by
  have key : (GoMap.get subs k).foldl
      (fun m entry => GoMap.set m entry.1 (markCapital (GoMap.get src.allCapitals k) entry.2))
      [] =
      (GoMap.get src.allSubdivisions k).foldl
        (fun m entry => GoMap.set m entry.1 (markCapital (GoMap.get src.allCapitals k) entry.2))
        [] := by
    rcases h k with e | e
    · have hget : GoMap.get subs k = GoMap.get src.allSubdivisions k := by
        simp only [GoMap.get, e]
      rw [hget]
    · cases hm : GoMap.find src.allSubdivisions k with
      | none =>
        rw [hm] at e
        rw [GoMap.get_of_find_none _ _ e, GoMap.get_of_find_none _ _ hm]
      | some m =>
        rw [hm] at e
        rw [GoMap.get_of_find _ _ _ e, GoMap.get_of_find _ _ _ hm, List.foldl_map]
        congr 1
        funext acc entry
        rw [markCapital_idem]
  show ({ c with
      Capital := GoMap.get src.allCapitals k
      Subdivisions := (GoMap.get subs k).foldl
        (fun m entry => GoMap.set m entry.1 (markCapital (GoMap.get src.allCapitals k) entry.2))
        []
      Timezones := GoMap.get src.allTimezones k
      Translations := src.allTranslations.foldl
        (fun m entry => GoMap.set m entry.1 (GoMap.get entry.2 k)) [] } : Country) = _
  rw [key]
  rfl

theorem aggregateLoop_fst (src : Sources) (l : List (String × Country)) (all : List Country)
    (subs : GoMap String (GoMap String Subdivision)) (h : ReadsStable src subs) :
    (aggregateLoop src l (all, subs)).1 =
      all ++ l.map (fun entry => mergeCountry src entry.1 entry.2) := by
  induction l generalizing all subs with
  | nil => simp [aggregateLoop]
  | cons p l ih =>
    obtain ⟨k, c⟩ := p
    simp only [aggregateLoop]
    rw [ih _ _ (readsStable_write src subs k h), mergeCountry_stable src subs h]
    simp

theorem aggregateLoop_snd (src : Sources) (l : List (String × Country)) (all : List Country)
    (subs : GoMap String (GoMap String Subdivision)) :
    (aggregateLoop src l (all, subs)).2 =
      l.foldl (fun s entry => writeCapitals src.allCapitals s entry.1) subs := by
  induction l generalizing all subs with
  | nil => rfl
  | cons p l ih =>
    obtain ⟨k, c⟩ := p
    simp only [aggregateLoop, List.foldl_cons]
    exact ih _ _

theorem find_foldl_writeCapitals (caps : GoMap String String) (l : List (String × Country))
    (subs : GoMap String (GoMap String Subdivision)) (k : String) :
    GoMap.find (l.foldl (fun s entry => writeCapitals caps s entry.1) subs) k =
      if k ∈ l.map Prod.fst then
        (GoMap.find subs k).map
          (fun m => m.map (fun entry => (entry.1, markCapital (GoMap.get caps k) entry.2)))
      else GoMap.find subs k := by
  induction l generalizing subs with
  | nil => simp
  | cons p l ih =>
    rw [List.foldl_cons, ih, find_writeCapitals]
    by_cases hp : p.1 = k
    · simp only [hp, if_true, List.map_cons, List.mem_cons, true_or]
      split
      · cases GoMap.find subs k with
        | none => rfl
        | some m => exact congrArg some (markAll_idem _ m)
      · rfl
    · have hp2 : ¬ k = p.1 := fun e => hp e.symm
      simp only [hp, if_false, List.map_cons, List.mem_cons, hp2, false_or]

theorem keys_foldl_writeCapitals (caps : GoMap String String) (l : List (String × Country))
    (subs : GoMap String (GoMap String Subdivision)) :
    (l.foldl (fun s entry => writeCapitals caps s entry.1) subs).map Prod.fst =
      subs.map Prod.fst := by
  induction l generalizing subs with
  | nil => rfl
  | cons p l ih => rw [List.foldl_cons, ih, keys_writeCapitals]

/-- The list that `loadCountryData` sorts is the list that the loop with
state builds. -/
theorem loadCountryData_loop (src : Sources) :
    (loadCountryData src).All =
      sortSlice (fun a b => stringLess a.Alpha2.data b.Alpha2.data)
        (aggregateLoop src src.allCountries ([], src.allSubdivisions)).1 := by
  rw [aggregateLoop_fst src _ _ _ (fun k => Or.inl rfl)]
  rfl

/-- C20 as stated fails: the record of "RM" in the subdivisions source has no
capital flag before the aggregation and has it afterwards; the loop writes
the flag through the pointer that the source holds. -/
theorem C20_counterexample :
    (GoMap.get (GoMap.get romeSources.allSubdivisions "IT") "RM").Capital = false ∧
    (GoMap.get (GoMap.get (sourcesAfter romeSources).allSubdivisions "IT") "RM").Capital = true ∧
    (sourcesAfter romeSources).allSubdivisions ≠ romeSources.allSubdivisions := by
  decide

/-- C20 (amended): the aggregation leaves the countries, translations,
capitals and timezones sources as they were, and the subdivisions source with
the same keys; the table of a code of the countries source holds its records
with the capital flag written by the rule of the loop, every other table is
unchanged, and the rule changes no field but `Capital`, which it can only
set.  The records of `All` are those that the loop builds on this state. -/
theorem C20_sources_after (src : Sources) :
    ((sourcesAfter src).allCountries = src.allCountries ∧
      (sourcesAfter src).allTranslations = src.allTranslations ∧
      (sourcesAfter src).allCapitals = src.allCapitals ∧
      (sourcesAfter src).allTimezones = src.allTimezones) ∧
    (sourcesAfter src).allSubdivisions.map Prod.fst = src.allSubdivisions.map Prod.fst ∧
    (∀ k, GoMap.find (sourcesAfter src).allSubdivisions k =
      if k ∈ src.allCountries.map Prod.fst then
        (GoMap.find src.allSubdivisions k).map
          (fun m => m.map
            (fun entry => (entry.1, markCapital (GoMap.get src.allCapitals k) entry.2)))
      else GoMap.find src.allSubdivisions k) ∧
    (∀ (capital : String) (sd : Subdivision),
      markCapital capital sd =
        { sd with
          Capital := sd.Capital ||
            decide (sd.Type_ = "metropolitan_city" ∧
              GoMap.get sd.Translations "en" = capital) }) ∧
    (loadCountryData src).All =
      sortSlice (fun a b => stringLess a.Alpha2.data b.Alpha2.data)
        (aggregateLoop src src.allCountries ([], src.allSubdivisions)).1 := by
  refine ⟨⟨rfl, rfl, rfl, rfl⟩, ?_, ?_, markCapital_eq, loadCountryData_loop src⟩
  · show ((aggregateLoop src src.allCountries ([], src.allSubdivisions)).2).map Prod.fst = _
    rw [aggregateLoop_snd, keys_foldl_writeCapitals]
  · intro k
    show GoMap.find (aggregateLoop src src.allCountries ([], src.allSubdivisions)).2 k = _
    rw [aggregateLoop_snd, find_foldl_writeCapitals]

/-! ### Determinism of the aggregation -/

/-- C19 as stated fails: the two keys of the countries source carry records
with the same `Alpha2`, and the two enumeration orders of that one map yield
`All` in two different orders, because the sort leaves records that compare
equal in the order of enumeration. -/
theorem C19_counterexample :
    GoMap.WF tiedSources.allCountries ∧
    tiedSources.allCountries.Perm tiedSourcesSwapped.allCountries ∧
    (loadCountryData tiedSources).All.map (fun c => c.Alpha3) = ["AAA", "BBB"] ∧
    (loadCountryData tiedSourcesSwapped).All.map (fun c => c.Alpha3) = ["BBB", "AAA"] := by
  refine ⟨by decide, ?_, by decide, by decide⟩
  exact (List.reverse_perm _).symm

theorem loadCountryData_sorted_entries (src : Sources) :
    (loadCountryData src).All =
      (sortSlice (fun a b : String × Country => stringLess a.2.Alpha2.data b.2.Alpha2.data)
        src.allCountries).map (fun entry => mergeCountry src entry.1 entry.2) := by
  symm
  exact List.map_insertionSort _ _ _ _ (fun a _ b _ => Iff.rfl)

/-- Sorting two enumerations of a map whose records carry pairwise distinct
codes yields the same list. -/
theorem sortSlice_entries_eq (l1 l2 : GoMap String Country)
    (hnd : (l1.map (fun entry => entry.2.Alpha2)).Nodup) (hp : l1.Perm l2) :
    sortSlice (fun a b : String × Country => stringLess a.2.Alpha2.data b.2.Alpha2.data) l1 =
      sortSlice (fun a b : String × Country => stringLess a.2.Alpha2.data b.2.Alpha2.data)
        l2 := by
  haveI : IsAntisymm (String × Country)
      (fun a b => stringLess a.2.Alpha2.data b.2.Alpha2.data = true) :=
    ⟨fun a b h1 h2 => by
      rw [stringLess_asymm _ _ h1] at h2
      cases h2⟩
  have hnd1 : (l1.map (fun e : String × Country => e.2.Alpha2.data)).Nodup := by
    have h3 := List.Nodup.map (f := String.data) (fun a b h => string_data_inj a b h) hnd
    rw [List.map_map] at h3
    exact h3
  have hnd2 : (l2.map (fun e : String × Country => e.2.Alpha2.data)).Nodup :=
    (hp.map _).nodup_iff.mp hnd1
  have hs1 := sortSlice_strict (fun e : String × Country => e.2.Alpha2.data) l1 hnd1
  have hs2 := sortSlice_strict (fun e : String × Country => e.2.Alpha2.data) l2 hnd2
  have hperm :
      (sortSlice (fun a b : String × Country => stringLess a.2.Alpha2.data b.2.Alpha2.data)
        l1).Perm
      (sortSlice (fun a b : String × Country => stringLess a.2.Alpha2.data b.2.Alpha2.data)
        l2) :=
    ((sortSlice_perm _ l1).trans hp).trans (sortSlice_perm _ l2).symm
  exact List.eq_of_perm_of_sorted hperm hs1 hs2

theorem regions_congr (l1 l2 : List Country)
    (h : l1.map (fun c => c.Region) = l2.map (fun c => c.Region)) :
    regions l1 = regions l2 := by
  have key : ∀ l : List Country,
      l.foldl (fun set c => if c.Region ≠ "" then GoMap.set set c.Region () else set)
        ([] : GoMap String Unit) =
      (l.map (fun c => c.Region)).foldl
        (fun set r => if r ≠ "" then GoMap.set set r () else set) [] := by
    intro l
    rw [List.foldl_map]
  unfold regions
  simp only [key, h]

theorem subregions_congr (l1 l2 : List Country)
    (h : l1.map (fun c => c.Subregion) = l2.map (fun c => c.Subregion)) :
    subregions l1 = subregions l2 := by
  have key : ∀ l : List Country,
      l.foldl (fun set c => if c.Subregion ≠ "" then GoMap.set set c.Subregion () else set)
        ([] : GoMap String Unit) =
      (l.map (fun c => c.Subregion)).foldl
        (fun set r => if r ≠ "" then GoMap.set set r () else set) [] := by
    intro l
    rw [List.foldl_map]
  unfold subregions
  simp only [key, h]

theorem mergeCountry_sameValue (src1 src2 : Sources) (k : String) (c : Country)
    (hSwf : GoMap.WF (GoMap.get src1.allSubdivisions k))
    (hS : (GoMap.get src1.allSubdivisions k).Perm (GoMap.get src2.allSubdivisions k))
    (hTwf : GoMap.WF src1.allTranslations)
    (hT : (src1.allTranslations.map
        (fun e => (e.1, (GoMap.get e.2 : String → String)))).Perm
      (src2.allTranslations.map (fun e => (e.1, (GoMap.get e.2 : String → String)))))
    (hCap : GoMap.get src1.allCapitals k = GoMap.get src2.allCapitals k)
    (hTz : GoMap.get src1.allTimezones k = GoMap.get src2.allTimezones k) :
    (mergeCountry src1 k c).sameValue (mergeCountry src2 k c) := by
  have hSwf2 : GoMap.WF (GoMap.get src2.allSubdivisions k) :=
    (hS.map Prod.fst).nodup_iff.mp hSwf
  have hTwf2 : GoMap.WF src2.allTranslations := by
    have h := hT.map Prod.fst
    rw [List.map_map, List.map_map] at h
    exact h.nodup_iff.mp hTwf
  refine ⟨?_, ?_, ?_⟩
  · show ({ c with
        Capital := GoMap.get src1.allCapitals k
        Subdivisions := []
        Timezones := GoMap.get src1.allTimezones k
        Translations := [] } : Country) =
      { c with
        Capital := GoMap.get src2.allCapitals k
        Subdivisions := []
        Timezones := GoMap.get src2.allTimezones k
        Translations := [] }
    rw [hCap, hTz]
  · rw [mergeCountry_subdivisions src1 k c hSwf, mergeCountry_subdivisions src2 k c hSwf2, hCap]
    exact hS.map _
  · rw [mergeCountry_translations src1 k c hTwf, mergeCountry_translations src2 k c hTwf2]
    have h := hT.map (fun p : String × (String → String) => (p.1, p.2 k))
    rw [List.map_map, List.map_map] at h
    exact h

/-- A strictly ascending list is the sorted form of each of its enumerations. -/
theorem sortSlice_of_perm (enum sorted : List String) (hp : enum.Perm sorted)
    (hs : sorted.Pairwise (fun a b => stringLess a.data b.data = true)) :
    sortSlice (fun a b : String => stringLess a.data b.data) enum = sorted := by
  haveI : IsAntisymm String (fun a b => stringLess a.data b.data = true) :=
    ⟨fun a b h1 h2 => by
      rw [stringLess_asymm _ _ h1] at h2
      cases h2⟩
  have hnd : (sorted.map (fun a : String => a.data)).Nodup := by
    have h : (sorted.map (fun a : String => a.data)).Pairwise
        (fun a b => stringLess a b = true) := List.pairwise_map.mpr hs
    refine h.imp ?_
    intro a b hab e
    rw [e, stringLess_irrefl] at hab
    cases hab
  have hnd2 : (enum.map (fun a : String => a.data)).Nodup := (hp.map _).nodup_iff.mpr hnd
  have hs2 := sortSlice_strict (fun a : String => a.data) enum hnd2
  have hperm : (sortSlice (fun a b : String => stringLess a.data b.data) enum).Perm sorted :=
    (sortSlice_perm _ enum).trans hp
  exact List.eq_of_perm_of_sorted hperm hs2 hs

/-- C19 (amended): when no two records of the countries source carry the same
`Alpha2`, as in a source keyed by code, two runs over two enumeration orders
of the same maps yield the same dataset.  The runs are
given as two sources whose countries, subdivision tables and translations are
permutations of each other and whose capitals and timezones agree on every
code.  Then the two lists `All` hold the same values position by position,
and `Alpha2`, `Regions` and `Subregions` are equal lists; the order in which
`regions` and `subregions` enumerate their set does not matter either. -/
theorem C19_deterministic (src1 src2 : Sources)
    (hnd : (src1.allCountries.map (fun entry => entry.2.Alpha2)).Nodup)
    (hC : src1.allCountries.Perm src2.allCountries)
    (hSwf : ∀ k, GoMap.WF (GoMap.get src1.allSubdivisions k))
    (hS : ∀ k, (GoMap.get src1.allSubdivisions k).Perm (GoMap.get src2.allSubdivisions k))
    (hTwf : GoMap.WF src1.allTranslations)
    (hT : (src1.allTranslations.map
        (fun e => (e.1, (GoMap.get e.2 : String → String)))).Perm
      (src2.allTranslations.map (fun e => (e.1, (GoMap.get e.2 : String → String)))))
    (hCap : ∀ k, GoMap.get src1.allCapitals k = GoMap.get src2.allCapitals k)
    (hTz : ∀ k, GoMap.get src1.allTimezones k = GoMap.get src2.allTimezones k) :
    List.Forall₂ Country.sameValue (loadCountryData src1).All (loadCountryData src2).All ∧
    (loadCountryData src1).Alpha2 = (loadCountryData src2).Alpha2 ∧
    (loadCountryData src1).Regions = (loadCountryData src2).Regions ∧
    (loadCountryData src1).Subregions = (loadCountryData src2).Subregions ∧
    (∀ enum : List String, enum.Perm (loadCountryData src1).Regions →
      sortSlice (fun a b : String => stringLess a.data b.data) enum =
        (loadCountryData src1).Regions) ∧
    (∀ enum : List String, enum.Perm (loadCountryData src1).Subregions →
      sortSlice (fun a b : String => stringLess a.data b.data) enum =
        (loadCountryData src1).Subregions) := by
  have hT12 := sortSlice_entries_eq src1.allCountries src2.allCountries hnd hC
  have hA1 := loadCountryData_sorted_entries src1
  have hA2 := loadCountryData_sorted_entries src2
  rw [← hT12] at hA2
  have hsame : List.Forall₂ Country.sameValue (loadCountryData src1).All
      (loadCountryData src2).All := by
    rw [hA1, hA2, List.forall₂_map_left_iff, List.forall₂_map_right_iff, List.forall₂_same]
    intro entry _
    exact mergeCountry_sameValue src1 src2 entry.1 entry.2 (hSwf _) (hS _) hTwf hT
      (hCap _) (hTz _)
  have hfield : ∀ f : Country → String,
      (∀ (src : Sources) (k : String) (c : Country), f (mergeCountry src k c) = f c) →
      (loadCountryData src1).All.map f = (loadCountryData src2).All.map f := by
    intro f hf
    rw [hA1, hA2, List.map_map, List.map_map]
    apply List.map_congr_left
    intro entry _
    show f (mergeCountry src1 entry.1 entry.2) = f (mergeCountry src2 entry.1 entry.2)
    rw [hf, hf]
  refine ⟨hsame, ?_, ?_, ?_, ?_, ?_⟩
  · exact hfield (fun c => c.Alpha2) (fun _ _ _ => rfl)
  · exact regions_congr _ _ (hfield (fun c => c.Region) (fun _ _ _ => rfl))
  · exact subregions_congr _ _ (hfield (fun c => c.Subregion) (fun _ _ _ => rfl))
  · intro enum hp
    exact sortSlice_of_perm enum _ hp (sortedFieldSet_spec (fun c => c.Region) (loadCountryData src1).All).2.2
  · intro enum hp
    exact sortSlice_of_perm enum _ hp (sortedFieldSet_spec (fun c => c.Subregion) (loadCountryData src1).All).2.2

theorem worldSources_subdivisions_wf (k : String) :
    GoMap.WF (GoMap.get worldSources.allSubdivisions k) := by
  by_cases h : "IT" = k
  · subst h
    decide
  · have e : GoMap.get worldSources.allSubdivisions k = [] := by
      simp [worldSources, GoMap.get, GoMap.find, h]
      rfl
    rw [e]
    exact List.nodup_nil

/-- C19, at concrete sources: the countries and the translations enumerated
in reverse order. -/
theorem C19_deterministic_witness :
    List.Forall₂ Country.sameValue (loadCountryData worldSources).All
      (loadCountryData worldSourcesShuffled).All ∧
    (loadCountryData worldSources).Alpha2 = (loadCountryData worldSourcesShuffled).Alpha2 ∧
    (loadCountryData worldSourcesShuffled).Alpha2 = ["AQ", "FR", "IT", "JP"] ∧
    (loadCountryData worldSourcesShuffled).Regions = ["Asia", "Europe"] :=
  ⟨(C19_deterministic worldSources worldSourcesShuffled (by decide)
      (List.reverse_perm _).symm worldSources_subdivisions_wf (fun _ => List.Perm.refl _)
      (by decide)
      (by
        show List.Perm _ (List.map _ (List.reverse _))
        rw [List.map_reverse]
        exact (List.reverse_perm _).symm)
      (fun _ => rfl) (fun _ => rfl)).1,
   (C19_deterministic worldSources worldSourcesShuffled (by decide)
      (List.reverse_perm _).symm worldSources_subdivisions_wf (fun _ => List.Perm.refl _)
      (by decide)
      (by
        show List.Perm _ (List.map _ (List.reverse _))
        rw [List.map_reverse]
        exact (List.reverse_perm _).symm)
      (fun _ => rfl) (fun _ => rfl)).2.1,
   by decide, by decide⟩

/-! ### The grouping loop of `loadTimezones` -/

theorem GoMap.get_set {κ ν : Type} [DecidableEq κ] [GoZero ν] (m : GoMap κ ν) (k k2 : κ)
    (v : ν) : GoMap.get (GoMap.set m k v) k2 = if k = k2 then v else GoMap.get m k2 := by
  unfold GoMap.get
  rw [GoMap.find_set]
  by_cases h : k = k2
  · simp [h]
  · simp [h]

theorem row_fields (row : List String) (h : 3 ≤ row.length) :
    ∃ code zone, row[1]? = some code ∧ row[2]? = some zone := by
  have h1 : 1 < row.length := by omega
  have h2 : 2 < row.length := by omega
  exact ⟨row[1], row[2], List.getElem?_eq_getElem h1, List.getElem?_eq_getElem h2⟩

theorem loadTimezonesLoop_spec (records : List (List String))
    (hrows : ∀ row ∈ records, 3 ≤ row.length) (out : GoMap String (List String))
    (hout : GoMap.WF out) :
    ∃ result, loadTimezonesLoop records out = some result ∧ GoMap.WF result ∧
      (∀ k, GoMap.get result k = GoMap.get out k ++ zonesOf records k) ∧
      (∀ k, k ∈ result.map Prod.fst ↔
        (k ∈ out.map Prod.fst ∨ ∃ row ∈ records, row[1]? = some k)) := by
  induction records generalizing out with
  | nil =>
    refine ⟨out, rfl, hout, ?_, ?_⟩
    · intro k
      simp [zonesOf]
    · intro k
      simp
  | cons row records ih =>
    obtain ⟨code, zone, h1, h2⟩ := row_fields row (hrows row (List.mem_cons_self _ _))
    have hrest : ∀ r ∈ records, 3 ≤ r.length := fun r hr => hrows r (List.mem_cons_of_mem _ hr)
    obtain ⟨result, hres, hwf, hget, hkeys⟩ :=
      ih hrest (GoMap.set out code (GoMap.get out code ++ [zone])) (GoMap.wf_set _ _ _ hout)
    refine ⟨result, ?_, hwf, ?_, ?_⟩
    · simp only [loadTimezonesLoop, h1, h2]
      exact hres
    · intro k
      rw [hget k, GoMap.get_set]
      by_cases hk : code = k
      · subst hk
        simp [zonesOf, h1, h2]
      · have hne : ¬ row[1]? = some k := by
          rw [h1]
          intro e
          exact hk (Option.some.inj e)
        simp [zonesOf, hk, hne]
    · intro k
      rw [hkeys k, GoMap.mem_keys_set]
      constructor
      · rintro ((h | h) | ⟨r, hr, hrk⟩)
        · exact Or.inr ⟨row, List.mem_cons_self _ _, h ▸ h1⟩
        · exact Or.inl h
        · exact Or.inr ⟨r, List.mem_cons_of_mem _ hr, hrk⟩
      · rintro (h | ⟨r, hr, hrk⟩)
        · exact Or.inl (Or.inr h)
        · rcases List.mem_cons.mp hr with hr | hr
          · subst hr
            rw [h1] at hrk
            exact Or.inl (Or.inl (Option.some.inj hrk).symm)
          · exact Or.inr ⟨r, hr, hrk⟩

/-- C21: on rows of at least three fields the grouping loop of
`loadTimezones`, started on the empty map, returns a map in which the list
under a code is the sequence of the third fields of the rows whose second
field is that code, in row order and with repetitions, and in which a code
has an entry exactly when some row carries it. -/
theorem C21_loadTimezones_grouping (records : List (List String))
    (hrows : ∀ row ∈ records, 3 ≤ row.length) :
    ∃ out, loadTimezonesLoop records [] = some out ∧ GoMap.WF out ∧
      (∀ k, GoMap.get out k =
        (records.filter (fun row => decide (row[1]? = some k))).filterMap
          (fun row => row[2]?)) ∧
      (∀ k, GoMap.find out k ≠ none ↔ ∃ row ∈ records, row[1]? = some k) := by
  obtain ⟨out, hres, hwf, hget, hkeys⟩ :=
    loadTimezonesLoop_spec records hrows [] List.nodup_nil
  refine ⟨out, hres, hwf, ?_, ?_⟩
  · intro k
    rw [hget k]
    rfl
  · intro k
    rw [Ne, GoMap.find_none_iff, not_not, hkeys k]
    simp

/-- C21, at concrete rows. -/
theorem C21_loadTimezones_grouping_witness :
    (∃ out, loadTimezonesLoop tzRows [] = some out ∧ GoMap.WF out ∧
      (∀ k, GoMap.get out k =
        (tzRows.filter (fun row => decide (row[1]? = some k))).filterMap
          (fun row => row[2]?)) ∧
      (∀ k, GoMap.find out k ≠ none ↔ ∃ row ∈ tzRows, row[1]? = some k)) ∧
    loadTimezonesLoop tzRows [] =
      some [("IT", ["Europe/Rome"]),
            ("US", ["America/New_York", "America/Chicago", "America/New_York"])] :=
  ⟨C21_loadTimezones_grouping tzRows (by decide), by decide⟩

/-! ### The flag of an arbitrary code -/

theorem flagsCodePoints_eq : flagsCodePoints = flagsSlice := by decide

theorem flagsSlice_letters : ∀ entry ∈ flagsSlice, 97 ≤ entry.1.toNat ∧ entry.1.toNat ≤ 122 := by
  decide

/-- A code point outside `a` to `z` has no entry in the flag table. -/
theorem flag_of_other (r : Char) (h : ¬ (97 ≤ r.toNat ∧ r.toNat ≤ 122)) :
    GoMap.get flagsCodePoints r = Char.ofNat 0 := by
  have hnone : GoMap.find flagsCodePoints r = none := by
    rw [GoMap.find_none_iff, flagsCodePoints_eq]
    intro hmem
    rw [List.mem_map] at hmem
    obtain ⟨entry, he, hr⟩ := hmem
    have := flagsSlice_letters entry he
    rw [hr] at this
    exact h this
  rw [GoMap.get_of_find_none _ _ hnone]
  rfl

theorem flag_of_letter (r : Char) (h : 97 ≤ r.toNat ∧ r.toNat ≤ 122) :
    (r, GoMap.get flagsCodePoints r) ∈ flagsSlice := by
  have := flag_of_lower r.toNat h.1 h.2
  rw [Char.ofNat_toNat] at this
  exact this

/-- C22: for every country `EmojiFlag` returns one code point for each code
point of the lower-cased `Alpha2`: the entry of the flag table for a letter
`a` to `z`, and U+0000 for any other code point, which is not skipped.  The
code "F1" yields the entry of "f" followed by U+0000, and the empty code
yields the empty string. -/
theorem C22_emojiFlag_total (unicodeToLower : Char → Char) (c : Country) :
    (c.EmojiFlag unicodeToLower).data.length = (ToLower unicodeToLower c.Alpha2).data.length ∧
    (ToLower unicodeToLower c.Alpha2).data.length = c.Alpha2.data.length ∧
    (∀ (i : Nat) (r : Char), (ToLower unicodeToLower c.Alpha2).data[i]? = some r →
      ∃ f, (c.EmojiFlag unicodeToLower).data[i]? = some f ∧
        ((97 ≤ r.toNat ∧ r.toNat ≤ 122) → (r, f) ∈ flagsSlice) ∧
        (¬ (97 ≤ r.toNat ∧ r.toNat ≤ 122) → f = Char.ofNat 0)) ∧
    (c.Alpha2 = "F1" →
      c.EmojiFlag unicodeToLower = ⟨[Char.ofNat 0x1F1EB, Char.ofNat 0]⟩ ∧
      ('f', Char.ofNat 0x1F1EB) ∈ flagsSlice) ∧
    (c.Alpha2 = "" → c.EmojiFlag unicodeToLower = "") := by
  have hdata : (c.EmojiFlag unicodeToLower).data =
      (ToLower unicodeToLower c.Alpha2).data.map (fun r => GoMap.get flagsCodePoints r) := by
    simp [Country.EmojiFlag, foldl_append_singleton]
  refine ⟨?_, ?_, ?_, ?_, ?_⟩
  · rw [hdata, List.length_map]
  · simp [ToLower]
  · intro i r hr
    refine ⟨GoMap.get flagsCodePoints r, ?_, flag_of_letter r, flag_of_other r⟩
    rw [hdata, List.getElem?_map, hr]
    rfl
  · intro hc
    refine ⟨?_, by decide⟩
    have := emojiFlag_data unicodeToLower c
    rw [hc] at this
    exact congrArg String.mk this
  · intro hc
    have := emojiFlag_data unicodeToLower c
    rw [hc] at this
    exact congrArg String.mk this

/-- C22, at the codes "F1" and "". -/
theorem C22_emojiFlag_total_witness :
    f1Country.EmojiFlag id = ⟨[Char.ofNat 0x1F1EB, Char.ofNat 0]⟩ ∧
    (f1Country.EmojiFlag id).data.length = 2 ∧
    (GoZero.zero : Country).EmojiFlag id = "" :=
  ⟨((C22_emojiFlag_total id f1Country).2.2.2.1 rfl).1, by decide,
   (C22_emojiFlag_total id GoZero.zero).2.2.2.2 rfl⟩

/-! ### The region index and the region filter -/

theorem inRegion_eq (Data : CountryData) (r : String) :
    InRegion Data r = some (Data.All.filter (fun c => decide (c.Region = r))) := by
  have := filterLoop_eq (fun c => decide (c.Region = r)) Data.All []
  simp only [decide_eq_true_eq, List.nil_append] at this
  exact this

theorem inSubregion_eq (Data : CountryData) (r : String) :
    InSubregion Data r = some (Data.All.filter (fun c => decide (c.Subregion = r))) := by
  have := filterLoop_eq (fun c => decide (c.Subregion = r)) Data.All []
  simp only [decide_eq_true_eq, List.nil_append] at this
  exact this

/-- Two filters that no element passes together select, one after the other,
the elements that pass either. -/
theorem filter_append_perm_of_disjoint {α : Type} (p q : α → Bool) (l : List α)
    (h : ∀ x, ¬ (p x = true ∧ q x = true)) :
    (l.filter p ++ l.filter q).Perm (l.filter (fun x => p x || q x)) := by
  induction l with
  | nil => simp
  | cons x l ih =>
    cases hp : p x with
    | true =>
      have hq : q x = false := by
        cases hq : q x with
        | false => rfl
        | true => exact absurd ⟨hp, hq⟩ (h x)
      simp only [List.filter_cons, hp, hq, Bool.true_or, if_true, Bool.false_eq_true,
        if_false, List.cons_append]
      exact List.Perm.cons x ih
    | false =>
      cases hq : q x with
      | true =>
        simp only [List.filter_cons, hp, hq, Bool.false_or, if_true, Bool.false_eq_true,
          if_false]
        exact List.perm_middle.trans (List.Perm.cons x ih)
      | false =>
        simp only [List.filter_cons, hp, hq, Bool.false_or, Bool.false_eq_true, if_false]
        exact ih

/-- Filtering by each key of a duplicate-free index, one after the other,
yields the records whose key is in the index, each once. -/
theorem flatMap_filter_perm (field : Country → String) (l : List Country)
    (index : List String) (hnd : index.Nodup) :
    (index.flatMap (fun r => l.filter (fun c => decide (field c = r)))).Perm
      (l.filter (fun c => decide (field c ∈ index))) := by
  induction index with
  | nil => simp
  | cons k ks ih =>
    have hk : k ∉ ks ∧ ks.Nodup := List.nodup_cons.mp hnd
    rw [List.flatMap_cons]
    have h1 := (ih hk.2).append_left (l.filter (fun c => decide (field c = k)))
    have h2 := filter_append_perm_of_disjoint (fun c => decide (field c = k))
      (fun c => decide (field c ∈ ks)) l (by
        intro c hc
        simp only [decide_eq_true_eq] at hc
        exact hk.1 (hc.1 ▸ hc.2))
    have h3 : l.filter (fun c => decide (field c = k) || decide (field c ∈ ks)) =
        l.filter (fun c => decide (field c ∈ k :: ks)) := by
      apply List.filter_congr
      intro c _
      simp [List.mem_cons]
    rw [h3] at h2
    exact h1.trans h2

/-- The index of a field and the filter by that field agree on a list of
records whose index is the sorted set of the non-empty values of the field. -/
theorem index_filter_agree (field : Country → String) (all : List Country)
    (index : List String)
    (hmem : ∀ r, r ∈ index ↔ (r ≠ "" ∧ ∃ c ∈ all, field c = r)) (hnd : index.Nodup) :
    (∀ r, r ≠ "" →
      ((∃ c rest, all.filter (fun c => decide (field c = r)) = c :: rest) ↔ r ∈ index)) ∧
    (index.flatMap (fun r => all.filter (fun c => decide (field c = r)))).Perm
      (all.filter (fun c => decide (field c ≠ ""))) ∧
    (∀ c ∈ all,
      (c ∈ index.flatMap (fun r => all.filter (fun c => decide (field c = r))) ↔
        field c ≠ "")) := by
  have hperm : (index.flatMap (fun r => all.filter (fun c => decide (field c = r)))).Perm
      (all.filter (fun c => decide (field c ≠ ""))) := by
    refine (flatMap_filter_perm field all index hnd).trans ?_
    have e : all.filter (fun c => decide (field c ∈ index)) =
        all.filter (fun c => decide (field c ≠ "")) := by
      apply List.filter_congr
      intro c hc
      have : field c ∈ index ↔ field c ≠ "" := by
        rw [hmem]
        constructor
        · intro h
          exact h.1
        · intro h
          exact ⟨h, c, hc, rfl⟩
      simp only [this]
    rw [e]
  refine ⟨?_, hperm, ?_⟩
  · intro r hr
    rw [hmem r]
    constructor
    · rintro ⟨c, rest, hcr⟩
      have hc : c ∈ all.filter (fun c => decide (field c = r)) := by
        rw [hcr]
        exact List.mem_cons_self _ _
      rw [List.mem_filter] at hc
      exact ⟨hr, c, hc.1, by simpa using hc.2⟩
    · rintro ⟨_, c, hc, hcr⟩
      have hmemf : c ∈ all.filter (fun c => decide (field c = r)) := by
        rw [List.mem_filter]
        exact ⟨hc, by simpa using hcr⟩
      cases hl : all.filter (fun c => decide (field c = r)) with
      | nil =>
        rw [hl] at hmemf
        cases hmemf
      | cons x rest => exact ⟨x, rest, rfl⟩
  · intro c hc
    rw [hperm.mem_iff, List.mem_filter]
    constructor
    · intro h
      simpa using h.2
    · intro h
      exact ⟨hc, by simpa using h⟩

/-- C23: in a dataset built by the aggregation, for a non-empty string the
filter `InRegion` returns a non-empty slice exactly when the string is in
`Regions`, and the results of `InRegion` over the entries of `Regions`, one
after the other, hold each record with a non-empty region once and no record
with an empty region; the same holds for `InSubregion` and `Subregions`. -/
theorem C23_index_filter_agree (src : Sources) :
    ((∀ r, r ≠ "" →
        ((∃ c rest, InRegion (loadCountryData src) r = some (c :: rest)) ↔
          r ∈ (loadCountryData src).Regions)) ∧
      (concatOver (loadCountryData src).Regions (InRegion (loadCountryData src))).Perm
        ((loadCountryData src).All.filter (fun c => decide (c.Region ≠ ""))) ∧
      (∀ c ∈ (loadCountryData src).All,
        (c ∈ concatOver (loadCountryData src).Regions (InRegion (loadCountryData src)) ↔
          c.Region ≠ ""))) ∧
    ((∀ r, r ≠ "" →
        ((∃ c rest, InSubregion (loadCountryData src) r = some (c :: rest)) ↔
          r ∈ (loadCountryData src).Subregions)) ∧
      (concatOver (loadCountryData src).Subregions (InSubregion (loadCountryData src))).Perm
        ((loadCountryData src).All.filter (fun c => decide (c.Subregion ≠ ""))) ∧
      (∀ c ∈ (loadCountryData src).All,
        (c ∈ concatOver (loadCountryData src).Subregions
            (InSubregion (loadCountryData src)) ↔
          c.Subregion ≠ ""))) := by
  have hR := sortedFieldSet_spec (fun c => c.Region) (loadCountryData src).All
  have hS := sortedFieldSet_spec (fun c => c.Subregion) (loadCountryData src).All
  have aR := index_filter_agree (fun c => c.Region) (loadCountryData src).All
    (loadCountryData src).Regions hR.1 hR.2.1
  have aS := index_filter_agree (fun c => c.Subregion) (loadCountryData src).All
    (loadCountryData src).Subregions hS.1 hS.2.1
  have cR : concatOver (loadCountryData src).Regions (InRegion (loadCountryData src)) =
      (loadCountryData src).Regions.flatMap
        (fun r => (loadCountryData src).All.filter (fun c => decide (c.Region = r))) := by
    unfold concatOver
    congr 1
    funext r
    rw [inRegion_eq]
    rfl
  have cS : concatOver (loadCountryData src).Subregions (InSubregion (loadCountryData src)) =
      (loadCountryData src).Subregions.flatMap
        (fun r => (loadCountryData src).All.filter (fun c => decide (c.Subregion = r))) := by
    unfold concatOver
    congr 1
    funext r
    rw [inSubregion_eq]
    rfl
  refine ⟨⟨?_, ?_, ?_⟩, ⟨?_, ?_, ?_⟩⟩
  · intro r hr
    rw [inRegion_eq]
    simp only [Option.some.injEq]
    exact aR.1 r hr
  · rw [cR]
    exact aR.2.1
  · rw [cR]
    exact aR.2.2
  · intro r hr
    rw [inSubregion_eq]
    simp only [Option.some.injEq]
    exact aS.1 r hr
  · rw [cS]
    exact aS.2.1
  · rw [cS]
    exact aS.2.2

/-- C23, at a concrete dataset. -/
theorem C23_index_filter_agree_witness :
    (loadCountryData worldSources).Regions = ["Asia", "Europe"] ∧
    (concatOver (loadCountryData worldSources).Regions
        (InRegion (loadCountryData worldSources))).map (fun c => c.Alpha2) =
      ["JP", "FR", "IT"] ∧
    (concatOver (loadCountryData worldSources).Regions
        (InRegion (loadCountryData worldSources))).Perm
      ((loadCountryData worldSources).All.filter (fun c => decide (c.Region ≠ ""))) :=
  ⟨by decide, by decide, (C23_index_filter_agree worldSources).1.2.1⟩

end Countries
